import Mathlib

/-!
Shallow embedding of the `dactyl-keyboard` geometry generator
(`dactyl_lynx_keyboard/layouts/finger_well.py` and
`dactyl_lynx_keyboard/assembly.py`).

Shapes are modelled as the syntax tree of solid operations the code builds
(the `solid2` `OpenSCADObject` tree), with a denotational semantics into sets
of points of `ℝ × ℝ × ℝ`.  Shapes supplied by external libraries (`spkb`,
`solid2.extensions.bosl2`) or by repository modules that are not among the
two source files (`layouts/layout.py`, `layouts/thumb_well.py`,
`mini_din_connector_mount.py`, `trackpoint_mount.py`) are opaque atoms or
spec-modelled functions, marked as such below.
-/

namespace DactylLynx

/-- Python numbers as they flow through the layout code: either an `int` or a
`float`.  The generator only produces decimal literals, so exact rationals
model the float values. -/
inductive PyNum where
  | pint (n : ℤ)
  | pfloat (q : ℚ)
deriving DecidableEq, Repr

/-- Numeric value of a Python number (`2.0 == 2` holds in Python, so
comparisons in the source are comparisons of these values). -/
def PyNum.toRat : PyNum → ℚ
  | .pint n => n
  | .pfloat q => q

/-- The `isinstance(x, float) and not x.is_integer()` test from
`assembly.py`: true exactly for a float with a nonzero fractional part. -/
def PyNum.isFractional : PyNum → Bool
  | .pint _ => false
  | .pfloat q => decide (q.den ≠ 1)

/-- Shorthand: an `int` position coordinate. -/
def pz (n : ℤ) : PyNum := .pint n

/-- Shorthand: a `float` position coordinate. -/
def pq (q : ℚ) : PyNum := .pfloat q

/-- The rational 1/2, in normal form (kernel-reducible numerator and
denominator). -/
def qHalf : ℚ := ⟨1, 2, by decide, Nat.coprime_one_left 2⟩

/-- The rational 5/2, in normal form. -/
def qFiveHalves : ℚ := ⟨5, 2, by decide, by norm_num [Int.natAbs]⟩

/-- Identifiers for opaque external shapes: keyswitch plates and boards from
`spkb`, screw threads from `bosl2`, and the shapes of the repository modules
that are not part of the two source files under scrutiny. -/
inductive AtomId where
  | keyswitchPlate
  | singleKeyBoard
  | stm32Render
  | stm32BackPosts
  | stm32FrontPosts
  | stm32Profile
  | dinFrame
  | dinHole
  | tpMount
  | tpHoles
  | screwHoleThreaded
  | screwHoleUnthreaded
  | cylinderOuter
  | cylinderOuterRPair
  | nothingShape
deriving DecidableEq, Repr

/-- A point of the modelling space. -/
abbrev Point : Type := ℝ × ℝ × ℝ

/-- The tree of solid operations built by the generator (the shape of a
`solid2` object).  Scalars are real numbers; `rotate` carries the angle in
degrees and the axis vector, exactly as the `.rotate(deg, axis)` calls do;
`hull` is OpenSCAD's convex hull of its (already united) argument;
`emptyS` is the empty shape used as the seat of modelled n-ary unions. -/
inductive Shape where
  | emptyS
  | cube (x y z : ℝ) (centered : Bool)
  | sphere (r : ℝ)
  | ext (a : AtomId) (ps : List ℝ)
  | translate (v : Point) (s : Shape)
  | rotate (deg : ℝ) (axis : Point) (s : Shape)
  | mirror (axis : Point) (s : Shape)
  | union2 (a b : Shape)
  | diff (a b : Shape)
  | inter (a b : Shape)
  | hull (s : Shape)
  | color (c : Point) (s : Shape)

/-- `solid2`'s `.up(z)`: translate along +Z. -/
def Shape.up (s : Shape) (z : ℝ) : Shape := .translate (0, 0, z) s

/-- `solid2`'s `.down(z)`: translate along -Z. -/
def Shape.down (s : Shape) (z : ℝ) : Shape := .translate (0, 0, -z) s

/-- `solid2`'s `.left(x)`: translate along -X. -/
def Shape.leftw (s : Shape) (x : ℝ) : Shape := .translate (-x, 0, 0) s

/-- `solid2`'s `.right(x)`: translate along +X. -/
def Shape.rightw (s : Shape) (x : ℝ) : Shape := .translate (x, 0, 0) s

/-- `solid2`'s `.forward(y)`: translate along +Y. -/
def Shape.forward (s : Shape) (y : ℝ) : Shape := .translate (0, y, 0) s

/-- `solid2`'s `.back(y)`: translate along -Y. -/
def Shape.back (s : Shape) (y : ℝ) : Shape := .translate (0, -y, 0) s

/-- `union()(xs...)` / `reduce(operator.add, xs, seed)`: left fold of binary
union over a list of shapes, seated at the empty shape when the list is
empty (the sources only apply it to nonempty lists). -/
def unionList : List Shape → Shape
  | [] => .emptyS
  | x :: xs => xs.foldl .union2 x

noncomputable section

/-- `math.degrees`: radians to degrees. -/
def degOf (x : ℝ) : ℝ := x * 180 / Real.pi

/-- Translation of a point by a vector. -/
def padd (v p : Point) : Point := (p.1 + v.1, p.2.1 + v.2.1, p.2.2 + v.2.2)

/-- Rotation of a point by `deg` degrees about the axis `ax` through the
origin (Rodrigues' formula with the axis normalised, matching OpenSCAD's
`rotate(deg, ax)`; a zero axis yields the fixed point formula's degenerate
`u = 0` case). -/
def rotPt (deg : ℝ) (ax : Point) (p : Point) : Point :=
  let θ : ℝ := deg * Real.pi / 180
  let n : ℝ := Real.sqrt (ax.1 ^ 2 + ax.2.1 ^ 2 + ax.2.2 ^ 2)
  let u : Point := (ax.1 / n, ax.2.1 / n, ax.2.2 / n)
  let cs : ℝ := Real.cos θ
  let sn : ℝ := Real.sin θ
  let d : ℝ := u.1 * p.1 + u.2.1 * p.2.1 + u.2.2 * p.2.2
  (cs * p.1 + sn * (u.2.1 * p.2.2 - u.2.2 * p.2.1) + (1 - cs) * d * u.1,
   cs * p.2.1 + sn * (u.2.2 * p.1 - u.1 * p.2.2) + (1 - cs) * d * u.2.1,
   cs * p.2.2 + sn * (u.1 * p.2.1 - u.2.1 * p.1) + (1 - cs) * d * u.2.2)

/-- Reflection of a point in the plane through the origin with normal `ax`
(OpenSCAD's `mirror(ax)`). -/
def mirrorPt (ax : Point) (p : Point) : Point :=
  let n : ℝ := Real.sqrt (ax.1 ^ 2 + ax.2.1 ^ 2 + ax.2.2 ^ 2)
  let u : Point := (ax.1 / n, ax.2.1 / n, ax.2.2 / n)
  let d : ℝ := u.1 * p.1 + u.2.1 * p.2.1 + u.2.2 * p.2.2
  (p.1 - 2 * d * u.1, p.2.1 - 2 * d * u.2.1, p.2.2 - 2 * d * u.2.2)

/-- Reflection in the plane `x = 0` ("mirror about the X axis" in the spec's
wording, `mirror((1, 0, 0))` in the code). -/
def mirrorXPt (p : Point) : Point := (-p.1, p.2.1, p.2.2)

/-- The image of a point set under a point transformation. -/
def ptImg (f : Point → Point) (S : Set Point) : Set Point :=
  {q | ∃ p ∈ S, q = f p}

end

/-- Interpretation of the opaque external shapes: each atom, with its numeric
arguments, denotes some set of points. -/
structure Env where
  atom : AtomId → List ℝ → Set Point

/-- Denotational semantics of a shape tree as a set of points, given an
interpretation of the external atoms. -/
def denote (E : Env) : Shape → Set Point
  | .emptyS => ∅
  | .cube x y z centered =>
      if centered then
        {p | |p.1| ≤ x / 2 ∧ |p.2.1| ≤ y / 2 ∧ |p.2.2| ≤ z / 2}
      else
        {p | 0 ≤ p.1 ∧ p.1 ≤ x ∧ 0 ≤ p.2.1 ∧ p.2.1 ≤ y ∧ 0 ≤ p.2.2 ∧ p.2.2 ≤ z}
  | .sphere r => {p | p.1 ^ 2 + p.2.1 ^ 2 + p.2.2 ^ 2 ≤ r ^ 2}
  | .ext a ps => E.atom a ps
  | .translate v s => ptImg (padd v) (denote E s)
  | .rotate d ax s => ptImg (rotPt d ax) (denote E s)
  | .mirror ax s => ptImg (mirrorPt ax) (denote E s)
  | .union2 a b => denote E a ∪ denote E b
  | .diff a b => denote E a \ denote E b
  | .inter a b => denote E a ∩ denote E b
  | .hull s => convexHull ℝ (denote E s)
  | .color _ s => denote E s

/-- The all-empty atom interpretation. -/
def envEmpty : Env := ⟨fun _ _ => ∅⟩

/-! ## The layouts

`FingerWellLayout` (source: `layouts/finger_well.py`).  Its base class
`Layout` (`layouts/layout.py`) is not among the source files, so its
attributes (`rad_per_row`, `rad_per_col`, `web_thickness`, `web_post_size`,
grid size, keyswitch) are carried as parameters here, and its methods are
modelled from the spec where used. -/

/-- Numeric footprint parameters of a keyswitch (external `spkb` collaborator;
opaque numbers). -/
structure Keyswitch where
  keyswitch_width : ℝ
  keyswitch_length : ℝ
  wall_thickness : ℝ
  plate_thickness : ℝ

/-- The parameters of a `FingerWellLayout`: the constructor arguments of
`finger_well.py` plus the curvature/web parameters owned by the missing
`Layout` base class (spec: "Layout: owns curvature parameters (radians per
row/column), skip-list of omitted positions"). -/
structure FingerWell where
  columns : ℕ
  rows : ℕ
  use_1_5u_keys : Bool
  keyswitch : Keyswitch
  rad_per_row : ℝ
  rad_per_col : ℝ
  web_thickness : ℝ
  web_post_size : ℝ

/-- `self.positions_to_skip = ((0, 4), )` from `FingerWellLayout.__init__`. -/
def positionsToSkip : List (ℤ × ℤ) := [(0, 4)]

/-- `self.placement_transform = (0, 0, 30.5)` from `FingerWellLayout.__init__`. -/
noncomputable def fingerPlacementTransform : Point := (0, 0, 30.5)

/-- `FingerWellLayout.column_adjust`: 1.5u keys on the outside columns make
columns at index ≥ 5 effectively wider. -/
def columnAdjust (F : FingerWell) (column : PyNum) : ℚ :=
  let q := column.toRat
  if F.use_1_5u_keys && decide (5 ≤ q) then q + (q - 4) * (1 / 4) else q

noncomputable section

/-- `FingerWellLayout.row_angle`: X rotation angle (degrees) for a row. -/
def rowAngle (F : FingerWell) (row : ℝ) : ℝ :=
  degOf (F.rad_per_row * (2 - row))

/-- `FingerWellLayout.column_angle`: Y rotation angle (degrees) for a column. -/
def columnAngle (F : FingerWell) (column : ℝ) : ℝ :=
  degOf (F.rad_per_col * (2 - column))

/-- `FingerWellLayout.placement_adjust`: per-column translation correction. -/
def placementAdjust (column _row : PyNum) (s : Shape) : Shape :=
  if column.toRat = 2 then .translate (0, 6.82, -4.0) s
  else if 4 ≤ column.toRat then .translate (0, -20.8, 7.64) s
  else s

/-- `FingerWellLayout.layout_place`: raise by 3, rotate 18° about Y then X,
translate by the placement transform. -/
def layoutPlace (s : Shape) : Shape :=
  .translate fingerPlacementTransform
    (.rotate (degOf (Real.pi / 10)) (1, 0, 0)
      (.rotate (degOf (Real.pi / 10)) (0, 1, 0) (s.up 3)))

/-- Modelled from the spec: `Layout.key_place` is not among the source files
("placement(column, row) → transform ... a composed rotation/translation
derived purely from position and static layout parameters").  It composes the
per-position row/column rotations (from `row_angle`, `column_angle`,
`column_adjust`) with `placement_adjust` and `layout_place`, all of which are
in the source. -/
def fingerKeyPlace (F : FingerWell) (column row : PyNum) (s : Shape) : Shape :=
  layoutPlace (placementAdjust column row
    (.rotate (columnAngle F ((columnAdjust F column : ℚ) : ℝ)) (0, 1, 0)
      (.rotate (rowAngle F ((row.toRat : ℚ) : ℝ)) (1, 0, 0) s)))

end

/-- All integer grid positions of a `cols × rows` grid, row by row. -/
def gridList (cols : ℕ) : ℕ → List (ℤ × ℤ)
  | 0 => []
  | r + 1 => gridList cols r ++ (List.range cols).map fun (c : ℕ) => ((c : ℤ), (r : ℤ))

/-- Modelled from the spec: `Layout.generate_positions` is not among the
source files ("generate_positions() → lazy sequence of valid (column,row)
pairs, finite, excluding the skip list"). -/
def generatePositions (F : FingerWell) : List (ℤ × ℤ) :=
  (gridList F.columns F.rows).filter fun p => decide (p ∉ positionsToSkip)

/-- A layout as consumed by the web/socket generators: its valid positions,
its placement function, and its web parameters.  (The thumb layout class is
not among the source files, so `KeyboardAssembly` carries an opaque instance
of this structure for it.) -/
structure LayoutM where
  positions : List (ℤ × ℤ)
  place : PyNum → PyNum → Shape → Shape
  web_thickness : ℝ
  web_post_size : ℝ
  keyswitch : Keyswitch

/-- The `LayoutM` view of a `FingerWellLayout`. -/
noncomputable def fingerLayoutM (F : FingerWell) : LayoutM :=
  ⟨generatePositions F, fingerKeyPlace F, F.web_thickness, F.web_post_size, F.keyswitch⟩

/-- The keyword arguments threaded through the `web_*` family (`z_offset`,
`thickness`, `size_adjust`, `position_adjust`), as in `web_all`'s signature. -/
structure WebKw where
  z_offset : ℝ
  thickness : Option ℝ
  size_adjust : Option (PyNum → PyNum → ℝ × ℝ)
  position_adjust : Option (PyNum → PyNum → ℝ × ℝ)

/-- The default keyword arguments of the `web_*` family. -/
def defaultWebKw : WebKw := ⟨0, none, none, none⟩

noncomputable section

/-- Modelled from the spec: `Layout.web_corner` is not among the source files.
A corner block is a `web_post_size × web_post_size × thickness` cube moved to
the requested corner of the key footprint (the exact corner-offset formula
appears inline in `assembly.py`'s `single_piece`), shifted by `z_offset` and
the optional size/position adjustment callbacks, then placed at the key
position. -/
def webCorner (L : LayoutM) (column row : PyNum) (left top : Bool) (kw : WebKw) : Shape :=
  let th := kw.thickness.getD L.web_thickness
  let sa := (kw.size_adjust.getD fun _ _ => (0, 0)) column row
  let pa := (kw.position_adjust.getD fun _ _ => (0, 0)) column row
  L.place column row (.translate
    ((if left then (-1 : ℝ) else 1) *
        ((L.keyswitch.keyswitch_width + sa.1 - L.web_post_size) / 2 +
          L.keyswitch.wall_thickness) + pa.1,
     (if top then (1 : ℝ) else -1) *
        ((L.keyswitch.keyswitch_length + sa.2 - L.web_post_size) / 2 +
          L.keyswitch.wall_thickness) + pa.2,
     kw.z_offset - th / 2)
    (.cube L.web_post_size L.web_post_size th true))

/-- Modelled from the spec: `Layout.web_left_of` is not among the source files
("web_* functions producing filler geometry between a position and its
neighbor (left, ...)"): the hull of the left corner blocks of `(column, row)`
and the right corner blocks of `(column - 1, row)`. -/
def webLeftOf (L : LayoutM) (column row : ℤ) (kw : WebKw) : Shape :=
  .hull (unionList
    [webCorner L (pz column) (pz row) true true kw,
     webCorner L (pz column) (pz row) true false kw,
     webCorner L (pz (column - 1)) (pz row) false true kw,
     webCorner L (pz (column - 1)) (pz row) false false kw])

/-- Modelled from the spec: `Layout.web_above` is not among the source files:
the hull of the top corner blocks of `(column, row)` and the bottom corner
blocks of `(column, row - 1)`. -/
def webAbove (L : LayoutM) (column row : ℤ) (kw : WebKw) : Shape :=
  .hull (unionList
    [webCorner L (pz column) (pz row) true true kw,
     webCorner L (pz column) (pz row) false true kw,
     webCorner L (pz column) (pz (row - 1)) true false kw,
     webCorner L (pz column) (pz (row - 1)) false false kw])

/-- Modelled from the spec: `Layout.web_top_left_of` is not among the source
files: the hull of the four corner blocks meeting at the junction of
`(column, row)`, `(column - 1, row)`, `(column, row - 1)` and
`(column - 1, row - 1)`. -/
def webTopLeftOf (L : LayoutM) (column row : ℤ) (kw : WebKw) : Shape :=
  .hull (unionList
    [webCorner L (pz column) (pz row) true true kw,
     webCorner L (pz (column - 1)) (pz row) false true kw,
     webCorner L (pz column) (pz (row - 1)) true false kw,
     webCorner L (pz (column - 1)) (pz (row - 1)) false false kw])

/-- The three generator comprehensions of `FingerWellLayout.web_all`
(source, lines 94-113), in source order: `web_top_left_of` over positions
with `column > 0 and row > 0 and (column != 1 or row != 4)`, then
`web_left_of` over positions with `column > 0 and (column != 1 or row != 4)`,
then `web_above` over positions with `row > 0`. -/
def webSegments (L : LayoutM) (kw : WebKw) : List Shape :=
  ((L.positions.filter fun p =>
      decide (0 < p.1 ∧ 0 < p.2 ∧ ¬(p.1 = 1 ∧ p.2 = 4))).map fun p =>
        webTopLeftOf L p.1 p.2 kw) ++
  ((L.positions.filter fun p =>
      decide (0 < p.1 ∧ ¬(p.1 = 1 ∧ p.2 = 4))).map fun p =>
        webLeftOf L p.1 p.2 kw) ++
  ((L.positions.filter fun p => decide (0 < p.2)).map fun p =>
        webAbove L p.1 p.2 kw)

/-- `FingerWellLayout.web_all` (source): `reduce(operator.add, chain(...))`.
Python's seedless `reduce` raises `TypeError` on an empty iterable, modelled
as `none`. -/
def webAll (L : LayoutM) (kw : WebKw) : Option Shape :=
  match webSegments L kw with
  | [] => none
  | x :: xs => some (xs.foldl .union2 x)

/-- `web_all` on the exception-free path (the assembly always calls it on
layouts whose segment list is nonempty). -/
def webAllD (L : LayoutM) (kw : WebKw) : Shape := (webAll L kw).getD .emptyS

/-- Modelled from the spec: `Layout.place_all` is not among the source files
(spec: the assembly "composes per-part outputs: ... (sockets + webs + ...)"
over the valid positions): the union, over the generated positions, of the
per-position shape placed at its position. -/
def placeAll (L : LayoutM) (f : PyNum → PyNum → Shape) : Shape :=
  unionList (L.positions.map fun p => L.place (pz p.1) (pz p.2) (f (pz p.1) (pz p.2)))

end

/-- The grid positions referenced by the web segments of `webSegments`: for
each emitted `web_top_left_of (c, r)` the four positions whose corner blocks
it hulls, for each `web_left_of (c, r)` the two positions `(c, r)` and
`(c - 1, r)`, and for each `web_above (c, r)` the two positions `(c, r)` and
`(c, r - 1)`; the position filters are those of `web_all`. -/
def webRefPositions (positions : List (ℤ × ℤ)) : List (ℤ × ℤ) :=
  ((positions.filter fun p =>
      decide (0 < p.1 ∧ 0 < p.2 ∧ ¬(p.1 = 1 ∧ p.2 = 4))).foldr
    (fun p acc => (p.1, p.2) :: (p.1 - 1, p.2) :: (p.1, p.2 - 1) ::
      (p.1 - 1, p.2 - 1) :: acc) []) ++
  ((positions.filter fun p =>
      decide (0 < p.1 ∧ ¬(p.1 = 1 ∧ p.2 = 4))).foldr
    (fun p acc => (p.1, p.2) :: (p.1 - 1, p.2) :: acc) []) ++
  ((positions.filter fun p => decide (0 < p.2)).foldr
    (fun p acc => (p.1, p.2) :: (p.1, p.2 - 1) :: acc) [])

/-! ## The assembly (`assembly.py`)

`KeyboardAssembly` reads numeric constants and shapes from external
collaborators (`spkb`, `bosl2` screws) and from repository modules that are
not among the source files (`mini_din_connector_mount.py`,
`trackpoint_mount.py`, `layouts/thumb_well.py`, `layouts/layout.py`); those
are carried as `ExternalParams` and shape atoms. -/

/-- Parameters owned by external collaborators or by repository modules that
are not among the two source files. -/
structure ExternalParams where
  rad_per_row : ℝ
  rad_per_col : ℝ
  web_thickness : ℝ
  web_post_size : ℝ
  sa_double_length : ℝ
  din_outer_radius : ℝ
  din_outer_frame_thickness : ℝ
  din_outer_frame_width : ℝ
  fudge_radius : ℝ → ℕ → ℝ
  thumb_positions : List (ℤ × ℤ)
  thumb_place : PyNum → PyNum → Shape → Shape
  thumb_web_thickness : ℝ
  thumb_web_post_size : ℝ
  thumb_placement_transform : Point

/-- The state of a `KeyboardAssembly` object: the constructor arguments and
every attribute assigned in `__init__` that the part-generating methods read. -/
structure Config where
  columns : ℕ
  rows : ℕ
  use_1_5u_keys : Bool
  use_color : Bool
  socket_shape : PyNum → PyNum → Shape
  keyswitch : Keyswitch
  left_side : Bool
  enable_trackpoint : Bool
  enable_nuts : Bool
  bottom_thumb_nuts : Bool
  edge_vertical_offset : ℝ
  bottom_cover_offset : ℝ
  bottom_cover_edge_protusion : ℝ
  bottom_cover_thickness : ℝ
  bottom_cover_post_size : ℝ
  bottom_cover_magnet_mount_thickness : ℝ
  bottom_cover_magnet_radius : ℝ
  bottom_cover_magnet_thickness : ℝ
  bottom_cover_magnet_offset : ℝ
  tenting_nut : Shape
  tenting_nut_unthreaded : Shape
  ext_params : ExternalParams

noncomputable section

/-- `KeyboardAssembly.__init__`: the default field values assigned there
(`left_side = False`, `enable_trackpoint = True`, the cover constants, the
tenting nut shapes, and the `socket_shape` defaulting to the keyswitch
plate). -/
def mkConfig (columns rows : ℕ) (use15 useColor : Bool)
    (socket : Option (PyNum → PyNum → Shape)) (ks : Keyswitch)
    (P : ExternalParams) : Config where
  columns := columns
  rows := rows
  use_1_5u_keys := use15
  use_color := useColor
  socket_shape := socket.getD fun _ _ => .ext .keyswitchPlate []
  keyswitch := ks
  left_side := false
  enable_trackpoint := true
  enable_nuts := false
  bottom_thumb_nuts := false
  edge_vertical_offset := 8
  bottom_cover_offset := 11
  bottom_cover_edge_protusion := ks.keyswitch_length - 1
  bottom_cover_thickness := 3
  bottom_cover_post_size := 0.2
  bottom_cover_magnet_mount_thickness := 1.5
  bottom_cover_magnet_radius := 2.5
  bottom_cover_magnet_thickness := 3
  bottom_cover_magnet_offset := 13.7
  tenting_nut := .diff (.cube 10 10 10 true) (.ext .screwHoleThreaded [10.01])
  tenting_nut_unthreaded := .diff (.cube 10 10 10 true) (.ext .screwHoleUnthreaded [10.01])
  ext_params := P

/-- `self.finger_layout` as a `LayoutM`. -/
def fingerOf (cfg : Config) : LayoutM :=
  fingerLayoutM ⟨cfg.columns, cfg.rows, cfg.use_1_5u_keys, cfg.keyswitch,
    cfg.ext_params.rad_per_row, cfg.ext_params.rad_per_col,
    cfg.ext_params.web_thickness, cfg.ext_params.web_post_size⟩

/-- `self.thumb_layout` as a `LayoutM` (the thumb well class is not among the
source files; its positions and placement are opaque parameters). -/
def thumbOf (cfg : Config) : LayoutM :=
  ⟨cfg.ext_params.thumb_positions, cfg.ext_params.thumb_place,
   cfg.ext_params.thumb_web_thickness, cfg.ext_params.thumb_web_post_size,
   cfg.keyswitch⟩

/-- `KeyboardAssembly.wall_thickness` (property). -/
def wallThickness (cfg : Config) : ℝ := cfg.keyswitch.wall_thickness

/-- `KeyboardAssembly.transform_finger_nut3`. -/
def transformFingerNut3 (s : Shape) : Shape :=
  .translate (-57, 16, 49) (.rotate 9 (1, 0, 0) (.rotate 15 (0, 1, 0) s))

/-- `KeyboardAssembly.transform_thumb_nut1`. -/
def transformThumbNut1 (cfg : Config) (s : Shape) : Shape :=
  .translate cfg.ext_params.thumb_placement_transform
    (.rotate 10 (1, 1, 1)
      (.translate (20, -25, 9)
        (.rotate 48 (0, 0, 1) (.rotate 5 (0, 1, 0) (.rotate (-10) (1, 0, 0) s)))))

/-- `KeyboardAssembly.transform_thumb_nut3`. -/
def transformThumbNut3 (cfg : Config) (s : Shape) : Shape :=
  .translate cfg.ext_params.thumb_placement_transform
    (.rotate 10 (1, 1, 1)
      (.translate (-3, 57, 33.2)
        (.rotate (-10) (0, 1, 0) (.rotate (-20) (0, 0, 1) (.rotate (-15) (1, 0, 0) s)))))

/-- `KeyboardAssembly.transform_board`: rotate to the board orientation and
place at key position (2, -1). -/
def transformBoard (cfg : Config) (s : Shape) : Shape :=
  (fingerOf cfg).place (pz 2) (pz (-1))
    (.translate (-26, -2.5, -6) (.rotate 160 (1, 0, 0) (.rotate 90 (0, 0, 1) s)))

/-- `KeyboardAssembly.transform_connector_mount`. -/
def transformConnectorMount (cfg : Config) (s : Shape) : Shape :=
  (fingerOf cfg).place (pz 0) (pz 0)
    (.translate
      ((cfg.keyswitch.keyswitch_width + cfg.ext_params.din_outer_frame_thickness) / (-2) - 1.5,
       0,
       -cfg.ext_params.din_outer_radius - 2)
      (.rotate (-90) (0, 1, 0) s))

/-- `KeyboardAssembly.transform_trackpoint_mount`: place at key position
(0.5, 2.5). -/
def transformTrackpointMount (cfg : Config) (s : Shape) : Shape :=
  (fingerOf cfg).place (pq qHalf) (pq qFiveHalves) s

/-- The stabilizer mount block of `switch_socket`'s fractional-row branch:
a `(width + 2·wall) × plate_height × web_thickness` block just beyond the
top edge of the key footprint. -/
def rowStabilizerMount (cfg : Config) : Shape :=
  let ks := cfg.keyswitch
  let plate_height := (cfg.ext_params.sa_double_length - ks.keyswitch_length + 0.4) / 2
  Shape.translate
    (0,
     (plate_height + ks.keyswitch_length) / 2 + wallThickness cfg,
     -cfg.ext_params.thumb_web_thickness / 2)
    (.cube (ks.keyswitch_width + wallThickness cfg * 2) plate_height
      cfg.ext_params.thumb_web_thickness true)

/-- The stabilizer mount block of `switch_socket`'s fractional-column branch:
a `plate_width × (length + 2·wall) × web_thickness` block just beyond the
right edge of the key footprint. -/
def colStabilizerMount (cfg : Config) : Shape :=
  let ks := cfg.keyswitch
  let plate_width := (cfg.ext_params.sa_double_length - ks.keyswitch_width + 0.4) / 2
  Shape.translate
    ((plate_width + ks.keyswitch_width) / 2 + wallThickness cfg,
     0,
     -cfg.ext_params.thumb_web_thickness / 2)
    (.cube plate_width (ks.keyswitch_length + wallThickness cfg * 2)
      cfg.ext_params.thumb_web_thickness true)

/-- `KeyboardAssembly.switch_socket` (source, lines 202-255), as a state
transformer on the assembly state: the socket shape for the position, plus a
pair of stabilizer mount blocks when the row (or else the column) is a
fractional number, the whole mirrored in the `x = 0` plane when
`left_side` is set.  (`__init__` replaces a `None` `socket_shape` argument by
the keyswitch plate callback, so the method's `None` test is the `else`
branch here.) -/
def switchSocketM (cfg : Config) (column row : PyNum) : Shape × Config :=
  let shape := cfg.socket_shape column row
  let shape :=
    if row.isFractional then
      .union2 (.union2 shape (rowStabilizerMount cfg))
        (.mirror (0, 1, 0) (rowStabilizerMount cfg))
    else if column.isFractional then
      .union2 (.union2 shape (colStabilizerMount cfg))
        (.mirror (0, 1, 0) (colStabilizerMount cfg))
    else shape
  if cfg.left_side then (.mirror (1, 0, 0) shape, cfg) else (shape, cfg)

end

noncomputable section

/-- `KeyboardAssembly.bottom_cover_size_adjust`. -/
def bottomCoverSizeAdjust (column _row : PyNum) : ℝ × ℝ :=
  if column.toRat = 2 then (2, 0)
  else if column.toRat = 4 then (-2, 0)
  else (0, 0)

/-- `KeyboardAssembly.bottom_cover_position_adjust`. -/
def bottomCoverPositionAdjust (column _row : PyNum) : ℝ × ℝ :=
  if column.toRat = 1 then (-2, 0)
  else if column.toRat = 3 ∨ column.toRat = 4 then (2, 0)
  else (0, 0)

/-- `KeyboardAssembly.switch_bottom_cover`. -/
def switchBottomCover (cfg : Config) (column row : PyNum) : Shape :=
  let ks := cfg.keyswitch
  let ew := (bottomCoverSizeAdjust column row).1
  let el := (bottomCoverSizeAdjust column row).2
  let xs := (bottomCoverPositionAdjust column row).1
  let ys := (bottomCoverPositionAdjust column row).2
  let zc : ℝ := -cfg.bottom_cover_offset - cfg.bottom_cover_thickness / 2
  if row.isFractional then
    .translate (xs, ys, zc)
      (.cube (ks.keyswitch_width + wallThickness cfg * 2 + ew)
        (cfg.ext_params.sa_double_length + el) cfg.bottom_cover_thickness true)
  else if column.isFractional then
    .translate (xs, ys, zc)
      (.cube (cfg.ext_params.sa_double_length + ew)
        (ks.keyswitch_length + wallThickness cfg * 2 + el)
        cfg.bottom_cover_thickness true)
  else
    .translate (xs, ys, zc)
      (.cube (ks.keyswitch_width + wallThickness cfg * 2 + ew)
        (ks.keyswitch_length + wallThickness cfg * 2 + el)
        cfg.bottom_cover_thickness true)

/-- `KeyboardAssembly.cover_magnet_mount`: cylinder plus dome (the external
`fudge_radius` helper returns a plain number for a plain radius argument, so
the scalar branch of the `isinstance` dispatch is the one taken). -/
def coverMagnetMount (cfg : Config) (top_shell : Bool) : Shape :=
  let radius := cfg.bottom_cover_magnet_radius + cfg.bottom_cover_magnet_mount_thickness
  let sphere_radius := cfg.ext_params.fudge_radius radius 12
  let shape :=
    Shape.union2
      ((Shape.ext .cylinderOuter [radius, cfg.bottom_cover_magnet_thickness]).up
        (cfg.bottom_cover_magnet_thickness / 2))
      ((Shape.diff (.sphere sphere_radius)
          ((Shape.cube (radius * 2) (radius * 2) (radius * 2) true).down radius)).up
        cfg.bottom_cover_magnet_thickness)
  if !top_shell then .mirror (0, 0, 1) shape else shape

/-- `KeyboardAssembly.cover_magnet_hole`: the hexagonal magnet pocket with
chamfers and end grooves (same shape for top shell and bottom cover). -/
def coverMagnetHole (cfg : Config) (_top_shell : Bool) : Shape :=
  let hex_radius := cfg.bottom_cover_magnet_radius * 0.99
  let hex_chamfer_width : ℝ := 0.3
  let end_groove_depth : ℝ := 0.5
  let end_groove_radius := hex_radius + end_groove_depth
  let end_groove_height : ℝ := 0.5
  unionList
    [(Shape.ext .cylinderOuter [end_groove_radius, end_groove_height, 6]).up
        (cfg.bottom_cover_magnet_thickness - end_groove_height / 2),
     (Shape.ext .cylinderOuterRPair [hex_radius, end_groove_radius, end_groove_depth, 6]).up
        (cfg.bottom_cover_magnet_thickness - end_groove_height - end_groove_depth / 2),
     (Shape.ext .cylinderOuterRPair
        [hex_radius, hex_radius + hex_chamfer_width, end_groove_depth, 6]).down
        (end_groove_depth / 2),
     Shape.ext .cylinderOuter [hex_radius, cfg.bottom_cover_magnet_thickness * 2, 6],
     (Shape.ext .cylinderOuterRPair
        [hex_radius + hex_chamfer_width, hex_radius, end_groove_depth, 6]).up
        (end_groove_depth / 2),
     (Shape.ext .cylinderOuterRPair [end_groove_radius, hex_radius, end_groove_depth, 6]).down
        (cfg.bottom_cover_magnet_thickness - end_groove_height - end_groove_depth / 2),
     (Shape.ext .cylinderOuter [end_groove_radius, end_groove_height, 6]).down
        (cfg.bottom_cover_magnet_thickness - end_groove_height / 2)]

/-- `KeyboardAssembly.place_cover_magnets`: the given shape at each of the six
magnet positions around the finger well. -/
def placeCoverMagnets (cfg : Config) (s : Shape) : Shape :=
  let s := s.down cfg.edge_vertical_offset
  let offset := cfg.bottom_cover_magnet_offset
  let L := fingerOf cfg
  unionList
    [L.place (pz 0) (pz 0) (s.forward offset),
     L.place (pz 0) (pz 2) (s.leftw offset),
     L.place (pz 1) (pz 4) (s.back offset),
     L.place (pz 5) (pz 4) (s.back offset),
     L.place (pz 5) (pz 2) (s.rightw offset),
     L.place (pz 5) (pz 0) ((s.forward offset).leftw 1.5)]

/-- `KeyboardAssembly.cover_edge_corner`: a corner post for the top-shell or
bottom-cover edge at the given key position. -/
def coverEdgeCorner (cfg : Config) (side : Bool) (column row : PyNum)
    (left top top_shell : Bool) (offset_along_edge : ℝ) (outer : Bool) : Shape :=
  let vertical_offset :=
    cfg.edge_vertical_offset +
      cfg.bottom_cover_post_size / (if top_shell then (-2 : ℝ) else 2)
  let edge_post :=
    (Shape.cube
      (if side && !outer then cfg.bottom_cover_thickness else cfg.bottom_cover_post_size)
      (if !side && !outer then cfg.bottom_cover_thickness else cfg.bottom_cover_post_size)
      cfg.bottom_cover_post_size true).down vertical_offset
  let protrusion :=
    cfg.bottom_cover_edge_protusion +
      (if outer then (cfg.bottom_cover_thickness - cfg.bottom_cover_post_size) / 2 else 0)
  let post :=
    if side then
      (edge_post.leftw (protrusion * (if left then 1 else -1))).forward
        ((if top then (10 : ℝ) else -10) + offset_along_edge)
    else
      (edge_post.forward (protrusion * (if top then 1 else -1))).leftw
        ((if left then (10 : ℝ) else -10) + offset_along_edge)
  (fingerOf cfg).place column row post

/-- `KeyboardAssembly.bottom_cover_web_kwargs`. -/
def bottomCoverWebKwargs (cfg : Config) : WebKw :=
  ⟨-cfg.bottom_cover_offset, some cfg.bottom_cover_thickness,
   some bottomCoverSizeAdjust, some bottomCoverPositionAdjust⟩

/-- `KeyboardAssembly.generate_cover_edge_corners`: the three groups of
(edge corner post, web corner) pairs tracing the shell edge. -/
def generateCoverEdgeCorners (cfg : Config) (ts : Bool) : List (List (Shape × Shape)) :=
  let kw := if !ts then bottomCoverWebKwargs cfg else defaultWebKw
  let L := fingerOf cfg
  let cec := fun (side : Bool) (c r : ℤ) (left top : Bool) (off : ℝ) =>
    coverEdgeCorner cfg side (pz c) (pz r) left top ts off false
  let wc := fun (c r : ℤ) (left top : Bool) => webCorner L (pz c) (pz r) left top kw
  [[(cec true 0 1 true true 0, wc 0 1 true true),
    (cec true 0 1 true false 0, wc 0 1 true false),
    (cec true 0 2 true true 0, wc 0 2 true true),
    (cec true 0 2 true false 0, wc 0 2 true false),
    (cec true 0 3 true true 0, wc 0 3 true true),
    (cec true 0 3 true false 7, wc 0 3 true false)],
   [(cec false 1 4 true false (-7), wc 1 4 true false),
    (cec false 1 4 false false (-3), wc 1 4 false false),
    (cec false 2 4 true false (-3), wc 2 4 true false),
    (cec false 2 4 false false 3, wc 2 4 false false),
    (cec false 3 4 true false 3, wc 3 4 true false),
    (cec false 3 4 false false 3, wc 3 4 false false),
    (cec false 4 4 true false 3, wc 4 4 true false),
    (cec false 4 4 false false 0, wc 4 4 false false),
    (cec false 5 4 true false 0, wc 5 4 true false),
    (cec false 5 4 false false (-2), wc 5 4 false false),
    (cec true 5 4 false false (-2), wc 5 4 false false),
    (cec true 5 4 false true 0, wc 5 4 false true),
    (cec true 5 3 false false 0, wc 5 3 false false),
    (cec true 5 3 false true 0, wc 5 3 false true),
    (cec true 5 2 false false 0, wc 5 2 false false),
    (cec true 5 2 false true 0, wc 5 2 false true),
    (cec true 5 1 false false 0, wc 5 1 false false),
    (cec true 5 1 false true 0, wc 5 1 false true),
    (cec true 5 0 false false 0, wc 5 0 false false),
    (cec true 5 0 false true 2, wc 5 0 false true),
    (cec false 5 0 false true (-2), wc 5 0 false true),
    (cec false 5 0 true true 0, wc 5 0 true true),
    (cec false 4 0 false true 0, wc 4 0 false true),
    (cec false 4 0 true true (-0.3), wc 4 0 true true)],
   [(cec false 0 0 false true (if ts then 0 else 2), wc 0 0 false true),
    (cec false 0 0 true true (if ts then 3 else 0), wc 0 0 true true)]]

/-- `itertools.pairwise` composed with `hull()(*edge1, *edge2)`: the hulls of
consecutive (corner post, web corner) pairs along one edge group. -/
def pairwiseHulls (edges : List (Shape × Shape)) : List Shape :=
  (edges.zip edges.tail).map fun e =>
    .hull (unionList [e.1.1, e.1.2, e.2.1, e.2.2])

/-- `KeyboardAssembly.finger_cover_edge`: the union of all pairwise edge
hulls plus the magnet mounts. -/
def fingerCoverEdge (cfg : Config) (ts : Bool) : Shape :=
  .union2
    (unionList (((generateCoverEdgeCorners cfg ts).map pairwiseHulls).foldr
      (· ++ ·) []))
    (placeCoverMagnets cfg (coverMagnetMount cfg ts))

/-- The first expression assigned to `shape` in `KeyboardAssembly.finger_part`
(source, lines 323-375): sockets, web, board mount, connector mount,
top-shell edge, magnet holes, connector hole. -/
def fingerPartBase (cfg : Config) : Shape :=
  let L := fingerOf cfg
  let dkw := defaultWebKw
  let boardBlock :=
    Shape.diff
      (.union2
        (.hull
          (.union2
            (.inter (.cube 60 120 2 true) (.ext .stm32BackPosts [8]))
            (.inter (.cube 60 120 2 true) (.ext .stm32FrontPosts [8]))))
        (.translate (0, 3 / 2, 13 / 2) (.cube 11 2.9 13 true)))
      (.ext .stm32Profile [8])
  let buttonHoles :=
    unionList
      [Shape.translate ((if cfg.left_side then (-5 : ℝ) else 5), -22, 0)
        (.cube 4 6 40 true),
       Shape.translate (-6, -46, 0) (.cube 4 6 40 true),
       Shape.translate (6, -46, 0) (.cube 4 6 40 true)]
  let connectorHull :=
    Shape.hull (unionList
      [transformConnectorMount cfg (.ext .dinFrame []),
       webCorner L (pz 0) (pz 0) true false dkw,
       webCorner L (pz 0) (pz 0) true true dkw,
       coverEdgeCorner cfg true (pz 0) (pz 1) true true true
         cfg.bottom_cover_post_size false,
       webCorner L (pz 0) (pz 1) true true dkw])
  let s1 := Shape.union2 (placeAll L fun c r => (switchSocketM cfg c r).1) (webAllD L dkw)
  let s2 := Shape.union2 s1 (transformBoard cfg (.ext .stm32Render [8]))
  let s3 :=
    Shape.union2 s2
      (.hull (unionList
        [transformBoard cfg (.inter (.cube 60 120 8 true) (.ext .stm32BackPosts [8])),
         webCorner L (pz 3) (pz 0) false true dkw,
         webCorner L (pz 3) (pz 0) true true dkw]))
  let s4 :=
    Shape.union2 s3
      (.hull (unionList
        [transformBoard cfg (.inter (.cube 60 120 6 true) (.ext .stm32FrontPosts [8])),
         webCorner L (pz 1) (pz 0) true true dkw,
         webCorner L (pz 1) (pz 0) false true dkw]))
  let s5 := Shape.union2 s4 (transformBoard cfg boardBlock)
  let s6 := Shape.diff s5 (transformBoard cfg buttonHoles)
  let s7 := Shape.union2 s6 connectorHull
  let s8 := Shape.union2 s7 (fingerCoverEdge cfg true)
  let s9 := Shape.diff s8 (placeCoverMagnets cfg (coverMagnetHole cfg true))
  Shape.diff s9 (transformConnectorMount cfg (.ext .dinHole []))

/-- `KeyboardAssembly.finger_part` (source, lines 318-386), as a state
transformer on the assembly state: the base shape above, the TrackPoint
mount added (and its holes subtracted) only when `enable_trackpoint` is set
and `left_side` is not, minus the per-key boards, optionally colored. -/
def fingerPartM (cfg : Config) : Shape × Config :=
  let shape := fingerPartBase cfg
  let shape :=
    if cfg.enable_trackpoint && !cfg.left_side then
      .diff (.union2 shape (transformTrackpointMount cfg (.ext .tpMount [])))
        (transformTrackpointMount cfg (.ext .tpHoles []))
    else shape
  let shape := Shape.diff shape (placeAll (fingerOf cfg) fun _ _ => .ext .singleKeyBoard [])
  if cfg.use_color then (.color (0.1, 0.1, 0.1) shape, cfg) else (shape, cfg)

/-- `KeyboardAssembly.thumb_part` (source, lines 964-1011), as a state
transformer: thumb sockets and web, plus the tenting-nut cluster when both
nut flags are set (`nothing` otherwise). -/
def thumbPartM (cfg : Config) : Shape × Config :=
  let T := thumbOf cfg
  let dkw := defaultWebKw
  let shape :=
    Shape.diff
      (.union2
        (.union2
          (placeAll T fun c r => (switchSocketM cfg c r).1)
          (webAllD T dkw))
        (if cfg.enable_nuts && cfg.bottom_thumb_nuts then
          .union2
            (.union2
              (transformThumbNut1 cfg cfg.tenting_nut)
              (.hull (unionList
                [transformThumbNut1 cfg (.translate (0, 5, 0) (.cube 10 0.1 10 true)),
                 webCorner T (pz 0) (pz 1) true false dkw,
                 webCorner T (pz 0) (pz 1) true true dkw])))
            (.hull (unionList
              [transformThumbNut1 cfg (.translate (5, 0, 0) (.cube 0.1 10 10 true)),
               webCorner T (pz 0) (pz 1) false false dkw,
               webCorner T (pz 0) (pz 1) true false dkw]))
        else .ext .nothingShape []))
      (placeAll T fun _ _ => .ext .singleKeyBoard [])
  if cfg.use_color then (.color (0.1, 0.1, 0.1) shape, cfg) else (shape, cfg)

/-- `KeyboardAssembly.finger_bottom_cover` (source, lines 740-783), as a
state transformer: per-key cover plates, cover web, connector-mount boss,
cover edge, magnet holes, connector clearance, and the board cutout. -/
def fingerBottomCoverM (cfg : Config) : Shape × Config :=
  let L := fingerOf cfg
  let wk := bottomCoverWebKwargs cfg
  let shape :=
    Shape.diff
      (.diff
        (.diff
          (.union2
            (.union2
              (.union2
                (placeAll L fun c r => switchBottomCover cfg c r)
                (webAllD L wk))
              (.hull (unionList
                [.diff
                  (transformConnectorMount cfg
                    ((Shape.ext .cylinderOuter
                      [cfg.ext_params.din_outer_radius,
                       10 + cfg.bottom_cover_thickness]).down
                      ((10 + cfg.bottom_cover_thickness) / 2 + 0.3)))
                  (L.place (pz 0) (pz 0)
                    ((Shape.cube 30 30 20 true).up (10 - cfg.bottom_cover_offset))),
                 webCorner L (pz 1) (pz 0) true true wk,
                 webCorner L (pz 1) (pz 0) true false wk])))
            (fingerCoverEdge cfg false))
          (placeCoverMagnets cfg (coverMagnetHole cfg false)))
        (.hull (unionList
          [transformConnectorMount cfg
            (.ext .cylinderOuter
              [cfg.ext_params.din_outer_radius - cfg.ext_params.din_outer_frame_width, 20]),
           webCorner L (pz 1) (pz 0) true true wk,
           webCorner L (pz 1) (pz 0) true false wk])))
      (L.place (pz 2) (pz (-1))
        (.translate (3, 0, 10 - cfg.bottom_cover_offset) (.cube 60 37 30 true)))
  (shape, cfg)

/-- `KeyboardAssembly.connector` (source, lines 1013-1033), as a state
transformer: the two unthreaded tenting nuts and the bar hulled between
them. -/
def connectorM (cfg : Config) : Shape × Config :=
  (.union2
    (.union2
      (transformFingerNut3 (cfg.tenting_nut_unthreaded.down 10))
      (transformThumbNut3 cfg (cfg.tenting_nut_unthreaded.down 10)))
    (.hull
      (.union2
        (transformFingerNut3 (.translate (0, -5, -10) (.cube 10 0.1 10 true)))
        (transformThumbNut3 cfg (.translate (0, 5, -10) (.cube 10 0.1 10 true))))),
   cfg)

/-- `KeyboardAssembly.single_piece` (source, lines 1035-1081), as a state
transformer: finger part, the three hulls joining it to the thumb well, the
thumb part, minus the cover magnet holes. -/
def singlePieceM (cfg : Config) : Shape × Config :=
  let fp := fingerPartM cfg
  let cfg₁ := fp.2
  let L := fingerOf cfg₁
  let T := thumbOf cfg₁
  let dkw := defaultWebKw
  let h1 :=
    Shape.hull (unionList
      [webCorner L (pz 0) (pz 2) true false dkw,
       webCorner L (pz 0) (pz 3) true true dkw,
       webCorner T (pz 2) (pz (-1)) true true dkw,
       webCorner T (pz 2) (pz (-1)) true false dkw,
       webCorner T (pz 1) (pz (-1)) false false dkw,
       webCorner T (pz 1) (pz (-1)) false true dkw])
  let h2 :=
    Shape.hull (unionList
      [webCorner L (pz 0) (pz 3) true true dkw,
       L.place (pz 0) (pz 3)
        (.translate
          (-((cfg₁.keyswitch.keyswitch_width - cfg₁.ext_params.web_post_size) / 2 +
              wallThickness cfg₁),
           0,
           -cfg₁.ext_params.web_thickness / 2)
          (.cube cfg₁.ext_params.web_post_size cfg₁.ext_params.web_post_size
            cfg₁.ext_params.web_thickness true)),
       webCorner T (pz 2) (pz 0) true true dkw,
       webCorner T (pz 2) (pz (-1)) true false dkw,
       webCorner T (pz 1) (pz (-1)) false false dkw,
       webCorner T (pz 1) (pz 0) false true dkw])
  let h3 :=
    Shape.hull (unionList
      [webCorner L (pz 0) (pz 2) true false dkw,
       coverEdgeCorner cfg₁ true (pz 0) (pz 2) true true true 0 true,
       webCorner T (pz 2) (pz (-1)) true true dkw,
       webCorner T (pz 1) (pz (-1)) false true dkw])
  let tp := thumbPartM cfg₁
  let cfg₂ := tp.2
  (.diff
    (.union2 (.union2 (.union2 (.union2 fp.1 h1) h2) h3) tp.1)
    (placeCoverMagnets cfg₂ (coverMagnetHole cfg₂ false)),
   cfg₂)

end

/-! ## Concrete fixtures

Concrete instances for the external parameters; their values are arbitrary
(the keyswitch footprint numbers live in the external `spkb` library). -/

noncomputable section

/-- A concrete keyswitch parameter set. -/
def ks0 : Keyswitch := ⟨14, 14, 3 / 2, 3⟩

/-- The default finger well: 6 columns, 5 rows, the `FingerWellLayout`
constructor defaults. -/
def fw0 : FingerWell := ⟨6, 5, true, ks0, 1, 1, 1, 1⟩

/-- A 1-column, 1-row finger well (`FingerWellLayout(columns=1, rows=1)`). -/
def fw1 : FingerWell := ⟨1, 1, true, ks0, 1, 1, 1, 1⟩

/-- Concrete external parameters (zero curvature, identity fudge, trivial
thumb layout). -/
def P0 : ExternalParams :=
  ⟨0, 0, 1, 1, 1, 1, 1, 1, fun r _ => r, [], fun _ _ s => s, 1, 1, (0, 0, 0)⟩

/-- A default-constructed assembly state (right-hand side). -/
def cfg0 : Config := mkConfig 6 5 false false none ks0 P0

/-- The same assembly state with `left_side` set (the left-hand side). -/
def cfg0L : Config := { cfg0 with left_side := true }

/-- The finger well of `cfg0` as a literal parameter record (zero curvature). -/
def fwR0 : FingerWell := ⟨6, 5, false, ks0, 0, 0, 1, 1⟩

end

/-- `true` iff no opaque atom with the given identifier occurs in the shape
tree. -/
def noAtom (bad : AtomId) : Shape → Bool
  | .emptyS => true
  | .cube _ _ _ _ => true
  | .sphere _ => true
  | .ext a _ => decide (a ≠ bad)
  | .translate _ s => noAtom bad s
  | .rotate _ _ s => noAtom bad s
  | .mirror _ s => noAtom bad s
  | .union2 a b => noAtom bad a && noAtom bad b
  | .diff a b => noAtom bad a && noAtom bad b
  | .inter a b => noAtom bad a && noAtom bad b
  | .hull s => noAtom bad s
  | .color _ s => noAtom bad s

noncomputable section

/-- The axis-aligned box of half-width `R` about the origin. -/
def Box (R : ℝ) : Set Point :=
  {p | |p.1| ≤ R ∧ |p.2.1| ≤ R ∧ |p.2.2| ≤ R}

/-- A crude recursive bound on the coordinates a shape tree can reach, valid
whenever every atom occurring in it denotes the empty set: primitives are
bounded by their dimensions, translation adds the offset, a rotated or
mirrored set is bounded by a constant multiple (the transformation matrices
have entries of magnitude at most 1 after axis normalisation). -/
def boundOf : Shape → ℝ
  | .emptyS => 0
  | .cube x y z _ => |x| + |y| + |z|
  | .sphere r => |r|
  | .ext _ _ => 0
  | .translate v s => boundOf s + (|v.1| + |v.2.1| + |v.2.2|)
  | .rotate _ _ s => 9 * boundOf s
  | .mirror _ s => 7 * boundOf s
  | .union2 a b => max (boundOf a) (boundOf b)
  | .diff a _b => boundOf a
  | .inter a _b => boundOf a
  | .hull s => boundOf s
  | .color _ s => boundOf s

/-- The atom interpretation exhibiting the left/right asymmetry: the
TrackPoint mount shape is the whole space, every other external shape is
empty. -/
def envC3 : Env :=
  ⟨fun a _ => if a = .tpMount then Set.univ else ∅⟩

end

/-! ## Basic semantic lemmas -/

@[simp] theorem denote_emptyS (E : Env) : denote E .emptyS = ∅ := rfl

@[simp] theorem denote_ext (E : Env) (a : AtomId) (ps : List ℝ) :
    denote E (.ext a ps) = E.atom a ps := rfl

@[simp] theorem denote_translate (E : Env) (v : Point) (s : Shape) :
    denote E (.translate v s) = ptImg (padd v) (denote E s) := rfl

@[simp] theorem denote_rotate (E : Env) (d : ℝ) (ax : Point) (s : Shape) :
    denote E (.rotate d ax s) = ptImg (rotPt d ax) (denote E s) := rfl

@[simp] theorem denote_mirror (E : Env) (ax : Point) (s : Shape) :
    denote E (.mirror ax s) = ptImg (mirrorPt ax) (denote E s) := rfl

@[simp] theorem denote_union2 (E : Env) (a b : Shape) :
    denote E (.union2 a b) = denote E a ∪ denote E b := rfl

@[simp] theorem denote_diff (E : Env) (a b : Shape) :
    denote E (.diff a b) = denote E a \ denote E b := rfl

@[simp] theorem denote_inter (E : Env) (a b : Shape) :
    denote E (.inter a b) = denote E a ∩ denote E b := rfl

@[simp] theorem denote_hull (E : Env) (s : Shape) :
    denote E (.hull s) = convexHull ℝ (denote E s) := rfl

@[simp] theorem denote_color (E : Env) (c : Point) (s : Shape) :
    denote E (.color c s) = denote E s := rfl

theorem denote_cube (E : Env) (x y z : ℝ) (c : Bool) :
    denote E (.cube x y z c) =
      if c then {p : Point | |p.1| ≤ x / 2 ∧ |p.2.1| ≤ y / 2 ∧ |p.2.2| ≤ z / 2}
      else {p : Point | 0 ≤ p.1 ∧ p.1 ≤ x ∧ 0 ≤ p.2.1 ∧ p.2.1 ≤ y ∧
        0 ≤ p.2.2 ∧ p.2.2 ≤ z} := rfl

theorem denote_sphere (E : Env) (r : ℝ) :
    denote E (.sphere r) =
      {p : Point | p.1 ^ 2 + p.2.1 ^ 2 + p.2.2 ^ 2 ≤ r ^ 2} := rfl

/-! ## Pointwise facts about the transformations -/

theorem degOf_rad (x : ℝ) : degOf x * Real.pi / 180 = x := by
  unfold degOf
  field_simp

theorem rotPt_zero_deg (ax p : Point) : rotPt 0 ax p = p := by
  rcases p with ⟨x, y, z⟩
  simp only [rotPt, zero_mul, zero_div, Real.cos_zero, Real.sin_zero]
  norm_num

theorem rotPt_y (d : ℝ) (p : Point) :
    rotPt d (0, 1, 0) p =
      (Real.cos (d * Real.pi / 180) * p.1 + Real.sin (d * Real.pi / 180) * p.2.2,
       p.2.1,
       Real.cos (d * Real.pi / 180) * p.2.2 - Real.sin (d * Real.pi / 180) * p.1) := by
  rcases p with ⟨x, y, z⟩
  simp only [rotPt]
  norm_num [Real.sqrt_one]
  ring_nf
  exact ⟨trivial, trivial⟩

theorem rotPt_x_fst (d : ℝ) (p : Point) : (rotPt d (1, 0, 0) p).1 = p.1 := by
  rcases p with ⟨x, y, z⟩
  simp only [rotPt]
  norm_num [Real.sqrt_one]
  ring

theorem mirrorPt_x (p : Point) : mirrorPt (1, 0, 0) p = mirrorXPt p := by
  rcases p with ⟨x, y, z⟩
  simp only [mirrorPt, mirrorXPt]
  norm_num [Real.sqrt_one]
  ring

/-! ## Coordinate bounds: every shape with only empty atoms denotes a subset
of a box around the origin -/

theorem abs_mul_le_of_le_one {a b R : ℝ} (ha : |a| ≤ 1) (hb : |b| ≤ R) :
    |a * b| ≤ R := by
  rw [abs_mul]
  calc |a| * |b| ≤ 1 * R := mul_le_mul ha hb (abs_nonneg _) one_pos.le
    _ = R := one_mul R

theorem coord_bound {cs sn X D ui qa R : ℝ} (hcs : |cs| ≤ 1) (hsn : |sn| ≤ 1)
    (hqa : |qa| ≤ R) (hX : |X| ≤ 2 * R) (hD : |D| ≤ 3 * R) (hui : |ui| ≤ 1)
    (h2cs : |1 - cs| ≤ 2) :
    |cs * qa + sn * X + (1 - cs) * D * ui| ≤ 9 * R := by
  have t1 : |cs * qa| ≤ R := abs_mul_le_of_le_one hcs hqa
  have t2 : |sn * X| ≤ 2 * R := abs_mul_le_of_le_one hsn hX
  have t3 : |(1 - cs) * D * ui| ≤ 6 * R := by
    have h6 : |(1 - cs) * D| ≤ 2 * (3 * R) := by
      rw [abs_mul]
      exact mul_le_mul h2cs hD (abs_nonneg _) (by norm_num)
    calc |(1 - cs) * D * ui| = |ui * ((1 - cs) * D)| := by rw [mul_comm]
      _ ≤ 2 * (3 * R) := abs_mul_le_of_le_one hui h6
      _ = 6 * R := by ring
  calc |cs * qa + sn * X + (1 - cs) * D * ui|
      ≤ |cs * qa + sn * X| + |(1 - cs) * D * ui| := abs_add _ _
    _ ≤ (|cs * qa| + |sn * X|) + |(1 - cs) * D * ui| := by
        have := abs_add (cs * qa) (sn * X)
        linarith
    _ ≤ 9 * R := by linarith

theorem axis_comp_abs_le_one (x y z : ℝ) :
    |x / Real.sqrt (x ^ 2 + y ^ 2 + z ^ 2)| ≤ 1 := by
  set n : ℝ := Real.sqrt (x ^ 2 + y ^ 2 + z ^ 2) with hn
  have hnn : 0 ≤ n := Real.sqrt_nonneg _
  rcases eq_or_lt_of_le hnn with h0 | h0
  · rw [← h0, div_zero, abs_zero]
    norm_num
  · rw [abs_div, abs_of_pos h0, div_le_one h0]
    have hsq : x ^ 2 ≤ n ^ 2 := by
      rw [hn, Real.sq_sqrt (by positivity)]
      nlinarith [sq_nonneg y, sq_nonneg z]
    nlinarith [abs_nonneg x, sq_abs x]

theorem rotPt_mem_box {R : ℝ} (d : ℝ) (ax : Point) {q : Point} (h : q ∈ Box R) :
    rotPt d ax q ∈ Box (9 * R) := by
  obtain ⟨h1, h2, h3⟩ := h
  have hc : |Real.cos (d * Real.pi / 180)| ≤ 1 := Real.abs_cos_le_one _
  have hs : |Real.sin (d * Real.pi / 180)| ≤ 1 := Real.abs_sin_le_one _
  have hu1 : |ax.1 / Real.sqrt (ax.1 ^ 2 + ax.2.1 ^ 2 + ax.2.2 ^ 2)| ≤ 1 :=
    axis_comp_abs_le_one _ _ _
  have hu2 : |ax.2.1 / Real.sqrt (ax.1 ^ 2 + ax.2.1 ^ 2 + ax.2.2 ^ 2)| ≤ 1 := by
    have h' := axis_comp_abs_le_one ax.2.1 ax.1 ax.2.2
    calc |ax.2.1 / Real.sqrt (ax.1 ^ 2 + ax.2.1 ^ 2 + ax.2.2 ^ 2)|
        = |ax.2.1 / Real.sqrt (ax.2.1 ^ 2 + ax.1 ^ 2 + ax.2.2 ^ 2)| := by ring_nf
      _ ≤ 1 := h'
  have hu3 : |ax.2.2 / Real.sqrt (ax.1 ^ 2 + ax.2.1 ^ 2 + ax.2.2 ^ 2)| ≤ 1 := by
    have h' := axis_comp_abs_le_one ax.2.2 ax.1 ax.2.1
    calc |ax.2.2 / Real.sqrt (ax.1 ^ 2 + ax.2.1 ^ 2 + ax.2.2 ^ 2)|
        = |ax.2.2 / Real.sqrt (ax.2.2 ^ 2 + ax.1 ^ 2 + ax.2.1 ^ 2)| := by ring_nf
      _ ≤ 1 := h'
  set u1 : ℝ := ax.1 / Real.sqrt (ax.1 ^ 2 + ax.2.1 ^ 2 + ax.2.2 ^ 2)
  set u2 : ℝ := ax.2.1 / Real.sqrt (ax.1 ^ 2 + ax.2.1 ^ 2 + ax.2.2 ^ 2)
  set u3 : ℝ := ax.2.2 / Real.sqrt (ax.1 ^ 2 + ax.2.1 ^ 2 + ax.2.2 ^ 2)
  have hd : |u1 * q.1 + u2 * q.2.1 + u3 * q.2.2| ≤ 3 * R := by
    calc |u1 * q.1 + u2 * q.2.1 + u3 * q.2.2|
        ≤ |u1 * q.1 + u2 * q.2.1| + |u3 * q.2.2| := abs_add _ _
      _ ≤ (|u1 * q.1| + |u2 * q.2.1|) + |u3 * q.2.2| := by
          have := abs_add (u1 * q.1) (u2 * q.2.1)
          linarith
      _ ≤ (R + R) + R := by
          have e1 := abs_mul_le_of_le_one hu1 h1
          have e2 := abs_mul_le_of_le_one hu2 h2
          have e3 := abs_mul_le_of_le_one hu3 h3
          linarith
      _ = 3 * R := by ring
  have h2cs : |1 - Real.cos (d * Real.pi / 180)| ≤ 2 := by
    have hlo := Real.neg_one_le_cos (d * Real.pi / 180)
    have hhi := Real.cos_le_one (d * Real.pi / 180)
    rw [abs_le]
    constructor <;> linarith
  have hX1 : |u2 * q.2.2 - u3 * q.2.1| ≤ 2 * R := by
    have e1 := abs_mul_le_of_le_one hu2 h3
    have e2 := abs_mul_le_of_le_one hu3 h2
    have := abs_sub (u2 * q.2.2) (u3 * q.2.1)
    linarith
  have hX2 : |u3 * q.1 - u1 * q.2.2| ≤ 2 * R := by
    have e1 := abs_mul_le_of_le_one hu3 h1
    have e2 := abs_mul_le_of_le_one hu1 h3
    have := abs_sub (u3 * q.1) (u1 * q.2.2)
    linarith
  have hX3 : |u1 * q.2.1 - u2 * q.1| ≤ 2 * R := by
    have e1 := abs_mul_le_of_le_one hu1 h2
    have e2 := abs_mul_le_of_le_one hu2 h1
    have := abs_sub (u1 * q.2.1) (u2 * q.1)
    linarith
  refine ⟨?_, ?_, ?_⟩
  · exact coord_bound hc hs h1 hX1 hd hu1 h2cs
  · exact coord_bound hc hs h2 hX2 hd hu2 h2cs
  · exact coord_bound hc hs h3 hX3 hd hu3 h2cs

theorem mirrorPt_mem_box {R : ℝ} (ax : Point) {q : Point} (h : q ∈ Box R) :
    mirrorPt ax q ∈ Box (7 * R) := by
  obtain ⟨h1, h2, h3⟩ := h
  have hu1 : |ax.1 / Real.sqrt (ax.1 ^ 2 + ax.2.1 ^ 2 + ax.2.2 ^ 2)| ≤ 1 :=
    axis_comp_abs_le_one _ _ _
  have hu2 : |ax.2.1 / Real.sqrt (ax.1 ^ 2 + ax.2.1 ^ 2 + ax.2.2 ^ 2)| ≤ 1 := by
    have h' := axis_comp_abs_le_one ax.2.1 ax.1 ax.2.2
    calc |ax.2.1 / Real.sqrt (ax.1 ^ 2 + ax.2.1 ^ 2 + ax.2.2 ^ 2)|
        = |ax.2.1 / Real.sqrt (ax.2.1 ^ 2 + ax.1 ^ 2 + ax.2.2 ^ 2)| := by ring_nf
      _ ≤ 1 := h'
  have hu3 : |ax.2.2 / Real.sqrt (ax.1 ^ 2 + ax.2.1 ^ 2 + ax.2.2 ^ 2)| ≤ 1 := by
    have h' := axis_comp_abs_le_one ax.2.2 ax.1 ax.2.1
    calc |ax.2.2 / Real.sqrt (ax.1 ^ 2 + ax.2.1 ^ 2 + ax.2.2 ^ 2)|
        = |ax.2.2 / Real.sqrt (ax.2.2 ^ 2 + ax.1 ^ 2 + ax.2.1 ^ 2)| := by ring_nf
      _ ≤ 1 := h'
  set u1 : ℝ := ax.1 / Real.sqrt (ax.1 ^ 2 + ax.2.1 ^ 2 + ax.2.2 ^ 2)
  set u2 : ℝ := ax.2.1 / Real.sqrt (ax.1 ^ 2 + ax.2.1 ^ 2 + ax.2.2 ^ 2)
  set u3 : ℝ := ax.2.2 / Real.sqrt (ax.1 ^ 2 + ax.2.1 ^ 2 + ax.2.2 ^ 2)
  have hd : |u1 * q.1 + u2 * q.2.1 + u3 * q.2.2| ≤ 3 * R := by
    calc |u1 * q.1 + u2 * q.2.1 + u3 * q.2.2|
        ≤ |u1 * q.1 + u2 * q.2.1| + |u3 * q.2.2| := abs_add _ _
      _ ≤ (|u1 * q.1| + |u2 * q.2.1|) + |u3 * q.2.2| := by
          have := abs_add (u1 * q.1) (u2 * q.2.1)
          linarith
      _ ≤ (R + R) + R := by
          have e1 := abs_mul_le_of_le_one hu1 h1
          have e2 := abs_mul_le_of_le_one hu2 h2
          have e3 := abs_mul_le_of_le_one hu3 h3
          linarith
      _ = 3 * R := by ring
  have key : ∀ qa ui : ℝ, |qa| ≤ R → |ui| ≤ 1 →
      |qa - 2 * (u1 * q.1 + u2 * q.2.1 + u3 * q.2.2) * ui| ≤ 7 * R := by
    intro qa ui hqa hui
    have ht : |2 * (u1 * q.1 + u2 * q.2.1 + u3 * q.2.2) * ui| ≤ 6 * R := by
      have h6 : |2 * (u1 * q.1 + u2 * q.2.1 + u3 * q.2.2)| ≤ 2 * (3 * R) := by
        rw [abs_mul]
        have : |(2 : ℝ)| = 2 := by norm_num
        rw [this]
        linarith
      calc |2 * (u1 * q.1 + u2 * q.2.1 + u3 * q.2.2) * ui|
          = |ui * (2 * (u1 * q.1 + u2 * q.2.1 + u3 * q.2.2))| := by rw [mul_comm]
        _ ≤ 2 * (3 * R) := abs_mul_le_of_le_one hui h6
        _ = 6 * R := by ring
    have := abs_sub qa (2 * (u1 * q.1 + u2 * q.2.1 + u3 * q.2.2) * ui)
    linarith
  exact ⟨key _ _ h1 hu1, key _ _ h2 hu2, key _ _ h3 hu3⟩

theorem convex_Box (R : ℝ) : Convex ℝ (Box R) := by
  intro x hx y hy a b ha hb hab
  obtain ⟨hx1, hx2, hx3⟩ := hx
  obtain ⟨hy1, hy2, hy3⟩ := hy
  have key : ∀ u v : ℝ, |u| ≤ R → |v| ≤ R → |a * u + b * v| ≤ R := by
    intro u v hu hv
    calc |a * u + b * v| ≤ |a * u| + |b * v| := abs_add _ _
      _ = a * |u| + b * |v| := by rw [abs_mul, abs_mul, abs_of_nonneg ha, abs_of_nonneg hb]
      _ ≤ a * R + b * R := by
          have t1 := mul_le_mul_of_nonneg_left hu ha
          have t2 := mul_le_mul_of_nonneg_left hv hb
          linarith
      _ = R := by rw [← add_mul, hab, one_mul]
  refine ⟨?_, ?_, ?_⟩
  · show |(a • x + b • y).1| ≤ R
    have he : (a • x + b • y).1 = a * x.1 + b * y.1 := rfl
    rw [he]
    exact key _ _ hx1 hy1
  · show |(a • x + b • y).2.1| ≤ R
    have he : (a • x + b • y).2.1 = a * x.2.1 + b * y.2.1 := rfl
    rw [he]
    exact key _ _ hx2 hy2
  · show |(a • x + b • y).2.2| ≤ R
    have he : (a • x + b • y).2.2 = a * x.2.2 + b * y.2.2 := rfl
    rw [he]
    exact key _ _ hx3 hy3

theorem Box_mono {R R' : ℝ} (h : R ≤ R') : Box R ⊆ Box R' := by
  intro p hp
  obtain ⟨h1, h2, h3⟩ := hp
  exact ⟨h1.trans h, h2.trans h, h3.trans h⟩

/-- Any shape whose atoms all denote the empty set (except possibly a
designated one that does not occur in it) denotes a subset of the box of
half-width `boundOf`. -/
theorem denote_subset_Box (E : Env) (bad : AtomId)
    (hE : ∀ a ps, a ≠ bad → E.atom a ps = ∅) :
    ∀ s : Shape, noAtom bad s = true → denote E s ⊆ Box (boundOf s) := by
  intro s
  induction s with
  | emptyS =>
    intro _
    rw [denote_emptyS]
    exact Set.empty_subset _
  | cube x y z centered =>
    intro _ p hp
    rw [denote_cube] at hp
    simp only [boundOf, Box, Set.mem_setOf_eq]
    have lx := le_abs_self x
    have ly := le_abs_self y
    have lz := le_abs_self z
    have nx := abs_nonneg x
    have ny := abs_nonneg y
    have nz := abs_nonneg z
    cases centered with
    | true =>
      rw [if_pos rfl] at hp
      obtain ⟨h1, h2, h3⟩ := hp
      refine ⟨by linarith, by linarith, by linarith⟩
    | false =>
      simp only [Bool.false_eq_true, if_false, Set.mem_setOf_eq] at hp
      obtain ⟨a1, a2, b1, b2, c1, c2⟩ := hp
      rw [abs_of_nonneg a1, abs_of_nonneg b1, abs_of_nonneg c1]
      refine ⟨by linarith, by linarith, by linarith⟩
  | sphere r =>
    intro _ p hp
    rw [denote_sphere] at hp
    simp only [Set.mem_setOf_eq] at hp
    simp only [boundOf, Box, Set.mem_setOf_eq]
    refine ⟨?_, ?_, ?_⟩ <;>
      nlinarith [sq_nonneg p.1, sq_nonneg p.2.1, sq_nonneg p.2.2,
        abs_nonneg p.1, sq_abs p.1, abs_nonneg p.2.1, sq_abs p.2.1,
        abs_nonneg p.2.2, sq_abs p.2.2, abs_nonneg r, sq_abs r]
  | ext a ps =>
    intro h
    have hne : a ≠ bad := by simpa [noAtom] using h
    rw [denote_ext, hE a ps hne]
    exact Set.empty_subset _
  | translate v s ih =>
    intro h p hp
    rw [denote_translate] at hp
    obtain ⟨q, hq, rfl⟩ := hp
    obtain ⟨h1, h2, h3⟩ := ih h hq
    have n1 := abs_nonneg v.1
    have n2 := abs_nonneg v.2.1
    have n3 := abs_nonneg v.2.2
    have a1 := abs_add q.1 v.1
    have a2 := abs_add q.2.1 v.2.1
    have a3 := abs_add q.2.2 v.2.2
    have l1 := le_abs_self v.1
    simp only [boundOf, Box, Set.mem_setOf_eq, padd]
    refine ⟨by linarith, by linarith, by linarith⟩
  | rotate d ax s ih =>
    intro h p hp
    rw [denote_rotate] at hp
    obtain ⟨q, hq, rfl⟩ := hp
    exact rotPt_mem_box d ax (ih h hq)
  | mirror ax s ih =>
    intro h p hp
    rw [denote_mirror] at hp
    obtain ⟨q, hq, rfl⟩ := hp
    exact mirrorPt_mem_box ax (ih h hq)
  | union2 a b iha ihb =>
    intro h p hp
    rw [denote_union2] at hp
    rw [noAtom, Bool.and_eq_true] at h
    simp only [boundOf]
    rcases hp with hp | hp
    · exact Box_mono (le_max_left _ _) (iha h.1 hp)
    · exact Box_mono (le_max_right _ _) (ihb h.2 hp)
  | diff a b iha ihb =>
    intro h p hp
    rw [denote_diff] at hp
    rw [noAtom, Bool.and_eq_true] at h
    exact iha h.1 hp.1
  | inter a b iha ihb =>
    intro h p hp
    rw [denote_inter] at hp
    rw [noAtom, Bool.and_eq_true] at h
    exact iha h.1 hp.1
  | hull s ih =>
    intro h
    rw [denote_hull]
    exact convexHull_min (ih h) (convex_Box _)
  | color c s ih =>
    intro h
    rw [denote_color]
    exact ih h

theorem ptImg_nonempty (f : Point → Point) {S : Set Point} (h : S.Nonempty) :
    (ptImg f S).Nonempty := by
  obtain ⟨p, hp⟩ := h
  exact ⟨f p, p, hp, rfl⟩

theorem ptImg_empty (f : Point → Point) : ptImg f (∅ : Set Point) = ∅ := by
  ext q
  simp [ptImg]

theorem denote_placementAdjust_nonempty (E : Env) (c r : PyNum) (s : Shape)
    (h : (denote E s).Nonempty) :
    (denote E (placementAdjust c r s)).Nonempty := by
  unfold placementAdjust
  split_ifs <;> first
    | exact ptImg_nonempty _ h
    | exact h

theorem denote_layoutPlace_nonempty (E : Env) (s : Shape)
    (h : (denote E s).Nonempty) :
    (denote E (layoutPlace s)).Nonempty := by
  unfold layoutPlace Shape.up
  exact ptImg_nonempty _ (ptImg_nonempty _ (ptImg_nonempty _ (ptImg_nonempty _ h)))

theorem denote_fingerKeyPlace_nonempty (E : Env) (F : FingerWell) (c r : PyNum)
    (s : Shape) (h : (denote E s).Nonempty) :
    (denote E (fingerKeyPlace F c r s)).Nonempty := by
  unfold fingerKeyPlace
  exact denote_layoutPlace_nonempty _ _
    (denote_placementAdjust_nonempty _ _ _ _ (ptImg_nonempty _ (ptImg_nonempty _ h)))

theorem denote_cube_centered_nonempty (E : Env) {x y z : ℝ}
    (hx : 0 ≤ x) (hy : 0 ≤ y) (hz : 0 ≤ z) :
    (denote E (.cube x y z true)).Nonempty := by
  refine ⟨(0, 0, 0), ?_⟩
  simp only [denote, if_pos, Set.mem_setOf_eq, abs_zero]
  exact ⟨by positivity, by positivity, by positivity⟩

/-- A corner block of the finger layout is a nonempty set (given nonnegative
web block dimensions). -/
theorem denote_webCorner_nonempty (E : Env) (F : FingerWell)
    (hwt : 0 ≤ F.web_thickness) (hwp : 0 ≤ F.web_post_size)
    (c r : PyNum) (l t : Bool) :
    (denote E (webCorner (fingerLayoutM F) c r l t defaultWebKw)).Nonempty := by
  unfold webCorner
  show (denote E (fingerKeyPlace F c r _)).Nonempty
  apply denote_fingerKeyPlace_nonempty
  rw [denote_translate]
  apply ptImg_nonempty
  exact denote_cube_centered_nonempty E hwp hwp hwt

theorem denote_foldl_union_subset (E : Env) : ∀ (xs : List Shape) (x s : Shape),
    s = x ∨ s ∈ xs → denote E s ⊆ denote E (xs.foldl .union2 x) := by
  intro xs
  induction xs with
  | nil =>
    intro x s h
    rcases h with rfl | h
    · exact subset_rfl
    · simp at h
  | cons y ys ih =>
    intro x s h
    have hstep : denote E s ⊆ denote E (Shape.union2 x y) ∨ s ∈ ys := by
      rcases h with rfl | h
      · exact Or.inl (by rw [denote_union2]; exact Set.subset_union_left)
      · rcases List.mem_cons.mp h with rfl | h
        · exact Or.inl (by rw [denote_union2]; exact Set.subset_union_right)
        · exact Or.inr h
    rcases hstep with hs | hs
    · exact hs.trans (ih (Shape.union2 x y) _ (Or.inl rfl))
    · exact ih _ s (Or.inr hs)

theorem denote_mem_unionList_subset (E : Env) {s : Shape} {l : List Shape}
    (h : s ∈ l) : denote E s ⊆ denote E (unionList l) := by
  cases l with
  | nil => simp at h
  | cons x xs =>
    rcases List.mem_cons.mp h with rfl | h
    · exact denote_foldl_union_subset E xs s s (Or.inl rfl)
    · exact denote_foldl_union_subset E xs x s (Or.inr h)

/-- A member of a hulled shape list is contained in the hull's denotation. -/
theorem denote_mem_hull_subset (E : Env) {s : Shape} {l : List Shape}
    (h : s ∈ l) : denote E s ⊆ denote E (.hull (unionList l)) := by
  rw [denote_hull]
  exact (denote_mem_unionList_subset E h).trans (subset_convexHull ℝ _)

/-! ## Position list lemmas -/

theorem mem_gridList {cols : ℕ} : ∀ {rows : ℕ} {p : ℤ × ℤ},
    p ∈ gridList cols rows ↔
      0 ≤ p.1 ∧ p.1 < cols ∧ 0 ≤ p.2 ∧ p.2 < rows := by
  intro rows
  induction rows with
  | zero =>
    intro p
    simp only [gridList, List.not_mem_nil, false_iff]
    omega
  | succ r ih =>
    intro p
    simp only [gridList, List.mem_append, List.mem_map, List.mem_range, ih]
    constructor
    · rintro (h | ⟨a, ha, rfl⟩)
      · obtain ⟨h1, h2, h3, h4⟩ := h
        refine ⟨h1, h2, h3, ?_⟩
        push_cast
        omega
      · refine ⟨?_, ?_, ?_, ?_⟩ <;> dsimp only <;> push_cast <;> omega
    · intro h
      obtain ⟨h1, h2, h3, h4⟩ := h
      by_cases hlt : p.2 < (r : ℤ)
      · exact Or.inl ⟨h1, h2, h3, hlt⟩
      · right
        have hr : (r : ℤ) = p.2 := by push_cast at h4; omega
        refine ⟨p.1.toNat, by omega, ?_⟩
        have hc : ((p.1.toNat : ℤ)) = p.1 := by omega
        exact Prod.ext hc hr

theorem gridList_length (cols : ℕ) : ∀ rows : ℕ,
    (gridList cols rows).length = rows * cols := by
  intro rows
  induction rows with
  | zero => simp [gridList]
  | succ r ih =>
    rw [gridList, List.length_append, List.length_map, List.length_range, ih]
    ring

theorem mem_generatePositions (F : FingerWell) (p : ℤ × ℤ) :
    p ∈ generatePositions F ↔
      0 ≤ p.1 ∧ p.1 < F.columns ∧ 0 ≤ p.2 ∧ p.2 < F.rows ∧ p ∉ positionsToSkip := by
  simp only [generatePositions, List.mem_filter, mem_gridList, decide_eq_true_eq]
  tauto

/-! ## Claims -/

/-- C1: for every pair of (orthogonally) adjacent valid positions of the
default 6×5 finger-well grid, `web_all` emits a web segment (produced by
`web_left_of` / `web_above`, with `web_top_left_of` filling the diagonal
junctions) that is a nonempty convex set — convexity being the no-gaps
guarantee — containing a nonempty placed corner block of each of the two
independently placed endpoint positions. -/
theorem claim_C1_web_bridges_adjacent_positions (E : Env) (F : FingerWell)
    (h6 : F.columns = 6) (h5 : F.rows = 5)
    (hwt : 0 ≤ F.web_thickness) (hwp : 0 ≤ F.web_post_size)
    (c r c' r' : ℤ)
    (hm : (c, r) ∈ generatePositions F)
    (hm' : (c', r') ∈ generatePositions F)
    (hadj : (c' = c - 1 ∧ r' = r) ∨ (c' = c ∧ r' = r - 1)) :
    ∃ seg ∈ webSegments (fingerLayoutM F) defaultWebKw,
      (denote E seg).Nonempty ∧ Convex ℝ (denote E seg) ∧
      ∃ l₁ t₁ l₂ t₂ : Bool,
        (denote E (webCorner (fingerLayoutM F) (pz c) (pz r) l₁ t₁ defaultWebKw)).Nonempty ∧
        (denote E (webCorner (fingerLayoutM F) (pz c') (pz r') l₂ t₂ defaultWebKw)).Nonempty ∧
        denote E (webCorner (fingerLayoutM F) (pz c) (pz r) l₁ t₁ defaultWebKw) ⊆
          denote E seg ∧
        denote E (webCorner (fingerLayoutM F) (pz c') (pz r') l₂ t₂ defaultWebKw) ⊆
          denote E seg := by
  obtain ⟨hb1, hb2, hb3, hb4, _⟩ := (mem_generatePositions F _).mp hm
  obtain ⟨hb1', hb2', hb3', hb4', hskip'⟩ := (mem_generatePositions F _).mp hm'
  simp only [positionsToSkip, List.mem_singleton, Prod.mk.injEq, not_and] at hskip'
  rcases hadj with ⟨hc', hr'⟩ | ⟨hc', hr'⟩
  · -- horizontal neighbours: the segment `web_left_of (c, r)`
    subst c'
    subst r'
    have hmem1 : webCorner (fingerLayoutM F) (pz c) (pz r) true true defaultWebKw ∈
        [webCorner (fingerLayoutM F) (pz c) (pz r) true true defaultWebKw,
         webCorner (fingerLayoutM F) (pz c) (pz r) true false defaultWebKw,
         webCorner (fingerLayoutM F) (pz (c - 1)) (pz r) false true defaultWebKw,
         webCorner (fingerLayoutM F) (pz (c - 1)) (pz r) false false defaultWebKw] := by
      simp
    have hmem2 : webCorner (fingerLayoutM F) (pz (c - 1)) (pz r) false true defaultWebKw ∈
        [webCorner (fingerLayoutM F) (pz c) (pz r) true true defaultWebKw,
         webCorner (fingerLayoutM F) (pz c) (pz r) true false defaultWebKw,
         webCorner (fingerLayoutM F) (pz (c - 1)) (pz r) false true defaultWebKw,
         webCorner (fingerLayoutM F) (pz (c - 1)) (pz r) false false defaultWebKw] := by
      simp
    have hsub1 := denote_mem_hull_subset E hmem1
    have hsub2 := denote_mem_hull_subset E hmem2
    have hseg_eq : webLeftOf (fingerLayoutM F) c r defaultWebKw =
        .hull (unionList
          [webCorner (fingerLayoutM F) (pz c) (pz r) true true defaultWebKw,
           webCorner (fingerLayoutM F) (pz c) (pz r) true false defaultWebKw,
           webCorner (fingerLayoutM F) (pz (c - 1)) (pz r) false true defaultWebKw,
           webCorner (fingerLayoutM F) (pz (c - 1)) (pz r) false false defaultWebKw]) := rfl
    rw [← hseg_eq] at hsub1 hsub2
    have hne1 := denote_webCorner_nonempty E F hwt hwp (pz c) (pz r) true true
    have hne2 := denote_webCorner_nonempty E F hwt hwp (pz (c - 1)) (pz r) false true
    refine ⟨webLeftOf (fingerLayoutM F) c r defaultWebKw, ?_, hne1.mono hsub1, ?_,
      true, true, false, true, hne1, hne2, hsub1, hsub2⟩
    · unfold webSegments
      refine List.mem_append.mpr (Or.inl (List.mem_append.mpr (Or.inr ?_)))
      refine List.mem_map.mpr ⟨(c, r), List.mem_filter.mpr ⟨hm, ?_⟩, rfl⟩
      simp only [decide_eq_true_eq]
      omega
    · rw [hseg_eq, denote_hull]
      exact convex_convexHull ℝ _
  · -- vertical neighbours: the segment `web_above (c, r)`
    subst c'
    subst r'
    have hmem1 : webCorner (fingerLayoutM F) (pz c) (pz r) true true defaultWebKw ∈
        [webCorner (fingerLayoutM F) (pz c) (pz r) true true defaultWebKw,
         webCorner (fingerLayoutM F) (pz c) (pz r) false true defaultWebKw,
         webCorner (fingerLayoutM F) (pz c) (pz (r - 1)) true false defaultWebKw,
         webCorner (fingerLayoutM F) (pz c) (pz (r - 1)) false false defaultWebKw] := by
      simp
    have hmem2 : webCorner (fingerLayoutM F) (pz c) (pz (r - 1)) true false defaultWebKw ∈
        [webCorner (fingerLayoutM F) (pz c) (pz r) true true defaultWebKw,
         webCorner (fingerLayoutM F) (pz c) (pz r) false true defaultWebKw,
         webCorner (fingerLayoutM F) (pz c) (pz (r - 1)) true false defaultWebKw,
         webCorner (fingerLayoutM F) (pz c) (pz (r - 1)) false false defaultWebKw] := by
      simp
    have hsub1 := denote_mem_hull_subset E hmem1
    have hsub2 := denote_mem_hull_subset E hmem2
    have hseg_eq : webAbove (fingerLayoutM F) c r defaultWebKw =
        .hull (unionList
          [webCorner (fingerLayoutM F) (pz c) (pz r) true true defaultWebKw,
           webCorner (fingerLayoutM F) (pz c) (pz r) false true defaultWebKw,
           webCorner (fingerLayoutM F) (pz c) (pz (r - 1)) true false defaultWebKw,
           webCorner (fingerLayoutM F) (pz c) (pz (r - 1)) false false defaultWebKw]) := rfl
    rw [← hseg_eq] at hsub1 hsub2
    have hne1 := denote_webCorner_nonempty E F hwt hwp (pz c) (pz r) true true
    have hne2 := denote_webCorner_nonempty E F hwt hwp (pz c) (pz (r - 1)) true false
    refine ⟨webAbove (fingerLayoutM F) c r defaultWebKw, ?_, hne1.mono hsub1, ?_,
      true, true, true, false, hne1, hne2, hsub1, hsub2⟩
    · unfold webSegments
      refine List.mem_append.mpr (Or.inr ?_)
      refine List.mem_map.mpr ⟨(c, r), List.mem_filter.mpr ⟨hm, ?_⟩, rfl⟩
      simp only [decide_eq_true_eq]
      omega
    · rw [hseg_eq, denote_hull]
      exact convex_convexHull ℝ _

/-- Witness for C1 at the adjacent pair (1, 1) and (0, 1) of the default
grid. -/
theorem claim_C1_witness :
    ∃ seg ∈ webSegments (fingerLayoutM fw0) defaultWebKw,
      (denote envEmpty seg).Nonempty ∧ Convex ℝ (denote envEmpty seg) ∧
      ∃ l₁ t₁ l₂ t₂ : Bool,
        (denote envEmpty
          (webCorner (fingerLayoutM fw0) (pz 1) (pz 1) l₁ t₁ defaultWebKw)).Nonempty ∧
        (denote envEmpty
          (webCorner (fingerLayoutM fw0) (pz 0) (pz 1) l₂ t₂ defaultWebKw)).Nonempty ∧
        denote envEmpty (webCorner (fingerLayoutM fw0) (pz 1) (pz 1) l₁ t₁ defaultWebKw) ⊆
          denote envEmpty seg ∧
        denote envEmpty (webCorner (fingerLayoutM fw0) (pz 0) (pz 1) l₂ t₂ defaultWebKw) ⊆
          denote envEmpty seg :=
  claim_C1_web_bridges_adjacent_positions envEmpty fw0 rfl rfl
    (by norm_num [fw0]) (by norm_num [fw0]) 1 1 0 1
    (by decide) (by decide) (by decide)

/-- C4: for every (column, row) position and fixed layout parameters, two
invocations of the placement computation (`layout_place` composed with the
per-position placement functions, as `fingerKeyPlace`) on the same inputs
produce identical transforms: placement is a pure function of the layout
parameters and the position, with no hidden state. -/
theorem claim_C4_placement_deterministic (F F' : FingerWell) (column row : PyNum)
    (s : Shape) (h : F = F') :
    fingerKeyPlace F column row s = fingerKeyPlace F' column row s := by
  rw [h]

/-- Witness for C4 at the default layout and position (1, 2). -/
theorem claim_C4_witness :
    fingerKeyPlace fw0 (pz 1) (pz 2) .emptyS = fingerKeyPlace fw0 (pz 1) (pz 2) .emptyS :=
  claim_C4_placement_deterministic fw0 fw0 (pz 1) (pz 2) .emptyS rfl

/-- C9: the home position is unrotated (`row_angle 2 = 0`,
`column_angle 2 = 0`), and both angle functions are affine in their argument
and strictly decreasing when `rad_per_row` / `rad_per_col` are positive. -/
theorem claim_C9_home_position_unrotated (F : FingerWell)
    (h1 : 0 < F.rad_per_row) (h2 : 0 < F.rad_per_col) :
    rowAngle F 2 = 0 ∧ columnAngle F 2 = 0 ∧
    StrictAnti (rowAngle F) ∧ StrictAnti (columnAngle F) ∧
    (∀ r : ℝ, rowAngle F r =
      -(F.rad_per_row * 180 / Real.pi) * r + F.rad_per_row * 360 / Real.pi) ∧
    (∀ c : ℝ, columnAngle F c =
      -(F.rad_per_col * 180 / Real.pi) * c + F.rad_per_col * 360 / Real.pi) := by
  have hπ := Real.pi_pos
  refine ⟨by simp [rowAngle, degOf], by simp [columnAngle, degOf], ?_, ?_, ?_, ?_⟩
  · intro a b hab
    unfold rowAngle degOf
    rw [div_lt_div_iff_of_pos_right hπ]
    nlinarith [mul_pos h1 (sub_pos.mpr hab)]
  · intro a b hab
    unfold columnAngle degOf
    rw [div_lt_div_iff_of_pos_right hπ]
    nlinarith [mul_pos h2 (sub_pos.mpr hab)]
  · intro r
    unfold rowAngle degOf
    ring
  · intro c
    unfold columnAngle degOf
    ring

/-- Witness for C9 at the default layout parameters. -/
theorem claim_C9_witness :
    (0 : ℝ) < fw0.rad_per_row ∧ (0 : ℝ) < fw0.rad_per_col ∧
    rowAngle fw0 2 = 0 ∧ columnAngle fw0 2 = 0 :=
  ⟨by norm_num [fw0], by norm_num [fw0],
   (claim_C9_home_position_unrotated fw0 (by norm_num [fw0]) (by norm_num [fw0])).1,
   (claim_C9_home_position_unrotated fw0 (by norm_num [fw0]) (by norm_num [fw0])).2.1⟩

/-- C6: `generate_positions()` yields exactly the (column, row) pairs of the
grid that are not in the skip list; for the default `FingerWellLayout`
(6 columns, 5 rows, skip `((0, 4),)`) it yields exactly 29 pairs, each at
most once. -/
theorem claim_C6_generate_positions (F : FingerWell) (p : ℤ × ℤ) :
    (p ∈ generatePositions F ↔
      0 ≤ p.1 ∧ p.1 < F.columns ∧ 0 ≤ p.2 ∧ p.2 < F.rows ∧ p ∉ positionsToSkip) ∧
    (generatePositions fw0).length = 29 ∧
    (generatePositions fw0).Nodup :=
  ⟨mem_generatePositions F p, by decide, by decide⟩

/-- C8: the generation pipeline ranges over finitely many positions: for
every grid size the position list has at most `columns * rows` entries and
`web_all`'s reduction ranges over at most `3 * columns * rows` web segments,
so the reductions are folds over finite lists and terminate. -/
theorem claim_C8_web_all_terminates (F : FingerWell) (kw : WebKw) :
    (generatePositions F).length ≤ F.columns * F.rows ∧
    (webSegments (fingerLayoutM F) kw).length ≤ 3 * (F.columns * F.rows) := by
  have hg : (generatePositions F).length ≤ F.columns * F.rows := by
    calc (generatePositions F).length
        ≤ (gridList F.columns F.rows).length := List.length_filter_le _ _
      _ = F.rows * F.columns := gridList_length F.columns F.rows
      _ = F.columns * F.rows := Nat.mul_comm _ _
  refine ⟨hg, ?_⟩
  have hpos : (fingerLayoutM F).positions = generatePositions F := rfl
  unfold webSegments
  rw [List.length_append, List.length_append, List.length_map, List.length_map,
    List.length_map, hpos]
  have l1 := List.length_filter_le
    (fun p : ℤ × ℤ => decide (0 < p.1 ∧ 0 < p.2 ∧ ¬(p.1 = 1 ∧ p.2 = 4)))
    (generatePositions F)
  have l2 := List.length_filter_le
    (fun p : ℤ × ℤ => decide (0 < p.1 ∧ ¬(p.1 = 1 ∧ p.2 = 4)))
    (generatePositions F)
  have l3 := List.length_filter_le
    (fun p : ℤ × ℤ => decide (0 < p.2)) (generatePositions F)
  omega

/-- C2: no position of the skip list is among the positions whose sockets
`place_all` emits (the generated positions) nor among the positions whose
corner blocks the web segments emitted by `web_all` reference, for the
default 6×5 layout. -/
theorem claim_C2_skip_list_never_referenced (p : ℤ × ℤ)
    (h : p ∈ positionsToSkip) :
    p ∉ generatePositions fw0 ∧ p ∉ webRefPositions (generatePositions fw0) := by
  have hp : p = ((0 : ℤ), (4 : ℤ)) := by
    simpa [positionsToSkip] using h
  subst hp
  exact ⟨by decide, by decide⟩

/-- Witness for C2 at the single skip-listed position (0, 4). -/
theorem claim_C2_witness :
    ((0 : ℤ), (4 : ℤ)) ∈ positionsToSkip ∧
    (((0 : ℤ), (4 : ℤ)) ∉ generatePositions fw0 ∧
      ((0 : ℤ), (4 : ℤ)) ∉ webRefPositions (generatePositions fw0)) :=
  ⟨by decide, claim_C2_skip_list_never_referenced _ (by decide)⟩

/-- C10: on a 1×1 finger well every generated position fails all three web
filters, so `web_all`'s seedless `reduce` is applied to an empty sequence and
raises (modelled: returns `none`); on the default 6×5 layout it returns a
shape. -/
theorem claim_C10_web_all_empty_grid_raises :
    webAll (fingerLayoutM fw1) defaultWebKw = none ∧
    (webAll (fingerLayoutM fw0) defaultWebKw).isSome = true := by
  constructor
  · have h : webSegments (fingerLayoutM fw1) defaultWebKw = [] := rfl
    rw [webAll, h]
  · have h : 0 < (webSegments (fingerLayoutM fw0) defaultWebKw).length := by decide
    rcases hseg : webSegments (fingerLayoutM fw0) defaultWebKw with _ | ⟨x, xs⟩
    · rw [hseg] at h
      simp at h
    · rw [webAll, hseg]
      rfl

/-- C7: each part-generating method of the assembly leaves the assembly
state (the configuration fields, including the previously constructed
`tenting_nut` shapes and the socket callback) unchanged: as state
transformers they all return the state they were given, and their shape
output is a pure function of that state. -/
theorem claim_C7_part_methods_pure (cfg : Config) (column row : PyNum) :
    (switchSocketM cfg column row).2 = cfg ∧
    (fingerPartM cfg).2 = cfg ∧
    (thumbPartM cfg).2 = cfg ∧
    (fingerBottomCoverM cfg).2 = cfg ∧
    (connectorM cfg).2 = cfg ∧
    (singlePieceM cfg).2 = cfg := by
  have hss : (switchSocketM cfg column row).2 = cfg := by
    unfold switchSocketM
    split_ifs <;> rfl
  have hfp : (fingerPartM cfg).2 = cfg := by
    unfold fingerPartM
    split_ifs <;> rfl
  have htp : (thumbPartM cfg).2 = cfg := by
    unfold thumbPartM
    split_ifs <;> rfl
  have hbc : (fingerBottomCoverM cfg).2 = cfg := rfl
  have hc : (connectorM cfg).2 = cfg := rfl
  have hsp : (singlePieceM cfg).2 = cfg := by
    unfold singlePieceM
    simp only []
    rw [hfp, htp]
  exact ⟨hss, hfp, htp, hbc, hc, hsp⟩

/-- C5: `switch_socket` adds the pair of widened stabilizer mount blocks
exactly when the row is a fractional float, or failing that when the column
is; for integer (or integer-valued float) coordinates the socket is the base
shape alone. -/
theorem claim_C5_fractional_positions_get_stabilizers (cfg : Config)
    (column row : PyNum) (h : cfg.left_side = false) :
    (row.isFractional = true →
      (switchSocketM cfg column row).1 =
        .union2 (.union2 (cfg.socket_shape column row) (rowStabilizerMount cfg))
          (.mirror (0, 1, 0) (rowStabilizerMount cfg))) ∧
    (row.isFractional = false → column.isFractional = true →
      (switchSocketM cfg column row).1 =
        .union2 (.union2 (cfg.socket_shape column row) (colStabilizerMount cfg))
          (.mirror (0, 1, 0) (colStabilizerMount cfg))) ∧
    (row.isFractional = false → column.isFractional = false →
      (switchSocketM cfg column row).1 = cfg.socket_shape column row) := by
  refine ⟨fun h1 => ?_, fun h1 h2 => ?_, fun h1 h2 => ?_⟩ <;>
    simp [switchSocketM, h, h1]
  · simp [h2]
  · simp [h2]

/-! ## Claim C3: the left-hand output versus the mirrored right-hand output -/

theorem denote_fingerKeyPlace_empty (E : Env) (F : FingerWell) (c r : PyNum)
    (s : Shape) (h : denote E s = ∅) :
    denote E (fingerKeyPlace F c r s) = ∅ := by
  unfold fingerKeyPlace layoutPlace Shape.up placementAdjust
  split_ifs <;> simp [h, ptImg_empty]

theorem denote_foldl_union_empty (E : Env) : ∀ (xs : List Shape) (x : Shape),
    denote E x = ∅ → (∀ s ∈ xs, denote E s = ∅) →
    denote E (xs.foldl .union2 x) = ∅ := by
  intro xs
  induction xs with
  | nil =>
    intro x hx _
    exact hx
  | cons y ys ih =>
    intro x hx hall
    have hy : denote E y = ∅ := hall y (List.mem_cons_self _ _)
    have hxy : denote E (Shape.union2 x y) = ∅ := by
      rw [denote_union2, hx, hy, Set.union_empty]
    exact ih _ hxy fun s hs => hall s (List.mem_cons_of_mem _ hs)

theorem denote_unionList_empty (E : Env) (l : List Shape)
    (h : ∀ s ∈ l, denote E s = ∅) : denote E (unionList l) = ∅ := by
  cases l with
  | nil => rfl
  | cons x xs =>
    exact denote_foldl_union_empty E xs x (h x (List.mem_cons_self _ _))
      fun s hs => h s (List.mem_cons_of_mem _ hs)

theorem denote_placeAll_fingerOf_empty (E : Env) (cfg : Config)
    (f : PyNum → PyNum → Shape) (h : ∀ c r, denote E (f c r) = ∅) :
    denote E (placeAll (fingerOf cfg) f) = ∅ := by
  unfold placeAll
  apply denote_unionList_empty
  intro s hs
  obtain ⟨p, _, rfl⟩ := List.mem_map.mp hs
  exact denote_fingerKeyPlace_empty E _ _ _ _ (h _ _)

/-- On the right-hand side (trackpoint enabled, not left, no color),
`finger_part` is the base shape plus the placed TrackPoint mount, minus the
TrackPoint holes, minus the per-key boards. -/
theorem fingerPartM_fst_right (cfg : Config) (htp : cfg.enable_trackpoint = true)
    (hl : cfg.left_side = false) (hc : cfg.use_color = false) :
    (fingerPartM cfg).1 =
      .diff
        (.diff
          (.union2 (fingerPartBase cfg)
            (transformTrackpointMount cfg (.ext .tpMount [])))
          (transformTrackpointMount cfg (.ext .tpHoles [])))
        (placeAll (fingerOf cfg) fun _ _ => .ext .singleKeyBoard []) := by
  unfold fingerPartM
  rw [htp, hl, hc]
  simp

/-- For every `t`, the placed image of the point `(t, 0, 0)` of the
(all-of-space) TrackPoint mount atom lies in the denotation of the placed
TrackPoint mount of the right-hand default assembly. -/
theorem tpMount_point_mem (t : ℝ) :
    padd (0, 0, 30.5)
          (rotPt (degOf (Real.pi / 10)) (1, 0, 0)
            (rotPt (degOf (Real.pi / 10)) (0, 1, 0) (padd (0, 0, 3) (t, 0, 0)))) ∈
      denote envC3 (transformTrackpointMount cfg0 (.ext .tpMount [])) := by
  have hpa : ∀ s : Shape, placementAdjust (pq qHalf) (pq qFiveHalves) s = s := by
    intro s
    unfold placementAdjust
    rw [if_neg (by decide), if_neg (by decide)]
  have hrow0 : ∀ x : ℝ, rowAngle fwR0 x = 0 := by
    intro x
    simp [rowAngle, degOf, fwR0]
  have hcol0 : ∀ x : ℝ, columnAngle fwR0 x = 0 := by
    intro x
    simp [columnAngle, degOf, fwR0]
  show _ ∈ denote envC3
    (Shape.translate (0, 0, 30.5)
      (.rotate (degOf (Real.pi / 10)) (1, 0, 0)
        (.rotate (degOf (Real.pi / 10)) (0, 1, 0)
          (.translate (0, 0, 3)
            (placementAdjust (pq qHalf) (pq qFiveHalves)
              (.rotate (columnAngle fwR0 ((columnAdjust fwR0 (pq qHalf) : ℚ) : ℝ)) (0, 1, 0)
                (.rotate (rowAngle fwR0 (((pq qFiveHalves).toRat : ℚ) : ℝ)) (1, 0, 0)
                  (.ext .tpMount []))))))))
  rw [hpa, hcol0, hrow0]
  rw [denote_translate]
  refine ⟨_, ?_, rfl⟩
  rw [denote_rotate]
  refine ⟨_, ?_, rfl⟩
  rw [denote_rotate]
  refine ⟨_, ?_, rfl⟩
  rw [denote_translate]
  refine ⟨(t, 0, 0), ?_, rfl⟩
  rw [denote_rotate]
  refine ⟨(t, 0, 0), ?_, (rotPt_zero_deg _ _).symm⟩
  rw [denote_rotate]
  refine ⟨(t, 0, 0), ?_, (rotPt_zero_deg _ _).symm⟩
  rw [denote_ext]
  show (t, 0, 0) ∈ (if AtomId.tpMount = AtomId.tpMount then Set.univ else ∅)
  rw [if_pos rfl]
  trivial

/-- C3, counterexample: with the TrackPoint mount atom interpreted as the
whole space and every other external shape empty, the finger part generated
with `left_side = True` is not the mirror image about the `x = 0` plane of
the finger part generated with `left_side = False` and the same parameters:
the right-hand output contains the placed TrackPoint mount, which reaches
arbitrarily far along the X axis, while the left-hand output (which omits
the TrackPoint branch) stays inside a bounded box. -/
theorem claim_C3_counterexample :
    ¬ (denote envC3 ((fingerPartM cfg0L).1) =
        ptImg mirrorXPt (denote envC3 ((fingerPartM cfg0).1))) := by
  intro heq
  have hEnv : ∀ a ps, a ≠ AtomId.tpMount → envC3.atom a ps = ∅ := by
    intro a ps h
    simp [envC3, h]
  have hbox := denote_subset_Box envC3 .tpMount hEnv ((fingerPartM cfg0L).1) (by decide)
  set R := boundOf ((fingerPartM cfg0L).1) with hRdef
  have hrad : degOf (Real.pi / 10) * Real.pi / 180 = Real.pi / 10 := degOf_rad _
  set C : ℝ := Real.cos (Real.pi / 10) with hCdef
  set S : ℝ := Real.sin (Real.pi / 10) with hSdef
  have hC : 0 < C := by
    rw [hCdef]
    apply Real.cos_pos_of_mem_Ioo
    constructor
    · have := Real.pi_pos
      linarith
    · have := Real.pi_pos
      linarith
  set t : ℝ := (R + 4) / C with htdef
  set Pt : Point := padd (0, 0, 30.5)
    (rotPt (degOf (Real.pi / 10)) (1, 0, 0)
      (rotPt (degOf (Real.pi / 10)) (0, 1, 0) (padd (0, 0, 3) (t, 0, 0)))) with hPtdef
  -- `Pt` is in the right-hand output
  have hH : denote envC3 (transformTrackpointMount cfg0 (.ext .tpHoles [])) = ∅ :=
    denote_fingerKeyPlace_empty envC3 fwR0 (pq qHalf) (pq qFiveHalves) _ rfl
  have hK : denote envC3
      (placeAll (fingerOf cfg0) fun _ _ => .ext .singleKeyBoard []) = ∅ :=
    denote_placeAll_fingerOf_empty envC3 cfg0 _ fun _ _ => rfl
  have hPtR : Pt ∈ denote envC3 ((fingerPartM cfg0).1) := by
    rw [fingerPartM_fst_right cfg0 rfl rfl rfl, denote_diff, denote_diff,
      denote_union2, hH, hK, Set.diff_empty, Set.diff_empty]
    exact Or.inr (tpMount_point_mem t)
  -- hence its mirror image is in the mirrored right-hand output, i.e. in the
  -- left-hand output by the assumed equation
  have hmem : mirrorXPt Pt ∈ ptImg mirrorXPt (denote envC3 ((fingerPartM cfg0).1)) :=
    ⟨Pt, hPtR, rfl⟩
  rw [← heq] at hmem
  obtain ⟨habs, -, -⟩ := hbox hmem
  -- but its X coordinate exceeds the box bound of the left-hand output
  have hx1 : Pt.1 = C * (t + 0) + S * (0 + 3) := by
    rw [hPtdef]
    show (rotPt (degOf (Real.pi / 10)) (1, 0, 0)
      (rotPt (degOf (Real.pi / 10)) (0, 1, 0) (padd (0, 0, 3) (t, 0, 0)))).1 + 0 = _
    rw [rotPt_x_fst, rotPt_y, hrad]
    show C * (t + 0) + S * (0 + 3) + 0 = _
    ring
  have hfst : (mirrorXPt Pt).1 = -(C * (t + 0) + S * (0 + 3)) := by
    show -Pt.1 = _
    rw [hx1]
  rw [hfst, abs_neg] at habs
  have hvle := le_abs_self (C * (t + 0) + S * (0 + 3))
  have hCt : C * t = R + 4 := by
    rw [htdef]
    field_simp
  have hSge : -1 ≤ S := by
    rw [hSdef]
    exact Real.neg_one_le_sin _
  nlinarith

/-- C3, amended: per switch socket the claim holds — for every assembly
state and position, the socket generated with `left_side = True` is exactly
the mirror image about the `x = 0` plane of the socket generated with
`left_side = False`; the full part outputs are not exact mirrors (socket
placement is not mirrored and the TrackPoint mount is only added on the
right-hand side). -/
theorem claim_C3_amended (E : Env) (cfg : Config) (column row : PyNum) :
    (switchSocketM { cfg with left_side := true } column row).1 =
      .mirror (1, 0, 0) (switchSocketM { cfg with left_side := false } column row).1 ∧
    denote E ((switchSocketM { cfg with left_side := true } column row).1) =
      ptImg mirrorXPt
        (denote E ((switchSocketM { cfg with left_side := false } column row).1)) := by
  have hast : (switchSocketM { cfg with left_side := true } column row).1 =
      .mirror (1, 0, 0) (switchSocketM { cfg with left_side := false } column row).1 := by
    unfold switchSocketM
    have h1 : rowStabilizerMount { cfg with left_side := true } = rowStabilizerMount cfg := rfl
    have h2 : rowStabilizerMount { cfg with left_side := false } = rowStabilizerMount cfg := rfl
    have h3 : colStabilizerMount { cfg with left_side := true } = colStabilizerMount cfg := rfl
    have h4 : colStabilizerMount { cfg with left_side := false } = colStabilizerMount cfg := rfl
    simp [h1, h2, h3, h4]
  refine ⟨hast, ?_⟩
  rw [hast, denote_mirror]
  have hfun : mirrorPt (1, 0, 0) = mirrorXPt := funext mirrorPt_x
  rw [hfun]

/-- Witness for C5: fractional row 2.5 at the default right-hand assembly
state gets the stabilizer pair. -/
theorem claim_C5_witness :
    (switchSocketM cfg0 (pz 1) (pq qFiveHalves)).1 =
      .union2
        (.union2 (cfg0.socket_shape (pz 1) (pq qFiveHalves)) (rowStabilizerMount cfg0))
        (.mirror (0, 1, 0) (rowStabilizerMount cfg0)) :=
  (claim_C5_fractional_positions_get_stabilizers cfg0 (pz 1) (pq qFiveHalves) rfl).1
    (by decide)

end DactylLynx
